import Mathlib

/-!
Verification of the vhdllint analysis engine (vhdllint.py) against its
specification.  The Lean definitions below are shallow embeddings of the
corresponding Python functions; names follow the source where Lean allows.
-/

namespace Vhdllint

/-! ## String primitives

Python string operations are modelled through the character list of the
string, so that their behaviour is fully transparent to the proofs. -/

/-- Python `s.startswith(p)`. -/
def pyStartsWith (s p : String) : Bool :=
  List.isPrefixOf p.toList s.toList

/-- Python `s[n:]`. -/
def strDrop (s : String) (n : Nat) : String :=
  String.mk (s.toList.drop n)

/-- Python whitespace for `str.strip`, restricted to the ASCII characters
that occur in this program's inputs. -/
def isPySpace (c : Char) : Bool :=
  c = ' ' || c = '\t' || c = '\n' || c = '\x0b' || c = '\x0c' || c = '\r'

/-- Python `s.strip()`. -/
def pyStrip (s : String) : String :=
  String.mk (((s.toList.dropWhile isPySpace).reverse.dropWhile isPySpace).reverse)

/-- Python `s.rstrip()`. -/
def pyRstrip (l : List Char) : List Char :=
  (l.reverse.dropWhile isPySpace).reverse

/-- Python `s.split(sep)` for a one-character separator. -/
def splitCharList (sep : Char) : List Char → List (List Char)
  | [] => [[]]
  | c :: cs =>
    match splitCharList sep cs with
    | [] => [[]]
    | g :: gs => if c = sep then [] :: g :: gs else (c :: g) :: gs

/-- Python `s.split(sep)` for a one-character separator, on strings. -/
def pySplit (s : String) (sep : Char) : List String :=
  (splitCharList sep s.toList).map String.mk

/-- A diagnostic as routed through `Error`: category, confidence, line,
column span, message text, and (for multiple-driver diagnostics) the list of
line numbers rendered into the message. -/
structure Diag where
  cat : String
  confidence : Nat
  line : Nat
  col : Int
  endCol : Int
  msg : String
  msgLines : List Nat := []
deriving DecidableEq, Repr

/-! ## NOLINT suppression state (`_error_suppressions` / `_error_suppressions_region`)

`_error_suppressions` maps a category (or `None`) to a set of line numbers;
`_global_error_suppressions` is never populated (`ProcessGlobalSuppresions`
always returns `False`), so it is omitted.  `suppAll` models the `None` key. -/
structure SuppState where
  suppAll : List Nat
  suppCat : List (String × Nat)
  region : List String
deriving DecidableEq, Repr

/-- `IsErrorSuppressedByNolint`: true iff the line is suppressed for the
given category or suppressed for all categories. -/
def isErrorSuppressedByNolint (st : SuppState) (category : String) (linenum : Nat) : Bool :=
  st.suppCat.contains (category, linenum) || st.suppAll.contains linenum

/-! ## The diagnostic sink gate (`_ShouldPrintError`, `_LintState.AddFilters`) -/

def _DEFAULT_FILTERS : List String := ["-build/include_alpha"]

/-- The filter walk of `_ShouldPrintError`: fold over the filter list, left
to right.  A filter starting with a minus marks the category filtered when
the category starts with the rest of the filter; a plus unmarks it under the
same test.  A filter starting with neither reaches `assert False` in the
source, which is modelled as `none`. -/
def filtersWalk (category : String) : List String → Bool → Option Bool
  | [], isFiltered => some isFiltered
  | f :: fs, isFiltered =>
    if pyStartsWith f "-" then
      filtersWalk category fs (if pyStartsWith category (strDrop f 1) then true else isFiltered)
    else if pyStartsWith f "+" then
      filtersWalk category fs (if pyStartsWith category (strDrop f 1) then false else isFiltered)
    else none

/-- `_ShouldPrintError`: `some true` means the diagnostic is emitted,
`some false` means it is dropped, `none` means the `assert False` branch of
the filter walk was reached. -/
def shouldPrintError (st : SuppState) (category : String) (confidence : Nat) (linenum : Nat)
    (verboseLevel : Nat) (filters : List String) : Option Bool :=
  if isErrorSuppressedByNolint st category linenum then some false
  else if confidence < verboseLevel then some false
  else match filtersWalk category filters false with
    | none => none
    | some isFiltered => some (!isFiltered)

/-- `_LintState.AddFilters`: split the new filters on commas, strip each,
append the non-empty ones, then require every filter in the resulting list
to start with a plus or a minus (else `ValueError`). -/
def addFilters (current : List String) (filters : String) : Except String (List String) :=
  if (current ++ ((pySplit filters ',').map pyStrip).filter (fun s => s ≠ "")).all
      (fun f => pyStartsWith f "+" || pyStartsWith f "-") then
    .ok (current ++ ((pySplit filters ',').map pyStrip).filter (fun s => s ≠ ""))
  else .error "Every filter in --filters must start with + or -"

/-- `_LintState.SetFilters`: reset to the default filters, then add. -/
def setFilters (filters : String) : Except String (List String) :=
  addFilters _DEFAULT_FILTERS filters

/-- The outcome the spec describes for the filter walk, with `st` the state
the walk starts from: the last entry whose text after the sign is a prefix of
the category decides, a minus entry meaning filtered; with no matching entry
the state stays `st`. -/
def lastMatchOutcome (category : String) (filters : List String) (st : Bool) : Bool :=
  match (filters.filter (fun f => pyStartsWith category (strDrop f 1))).getLast? with
  | some f => pyStartsWith f "-"
  | none => st

/-- The empty suppression state: no NOLINT directive was seen. -/
def noSupp : SuppState := ⟨[], [], []⟩

/-- The diagnostics surviving the gate, out of a candidate list of
(suppression state, category, confidence, line) tuples. -/
def emittedDiags (verboseLevel : Nat) (filters : List String)
    (cands : List (SuppState × String × Nat × Nat)) : List (SuppState × String × Nat × Nat) :=
  cands.filter fun c =>
    shouldPrintError c.1 c.2.1 c.2.2.1 c.2.2.2 verboseLevel filters == some true

/-! ## Drivers (`Driver`, `PossibleDriver`, `ProcessDriver`,
`IdentifierWithType.HasMultipleDrivers`) -/

inductive DKind
  | plain
  | possible
  | process
deriving DecidableEq, Repr

/-- The scope value of a driver as constructed by the program: the empty
string (`Driver("", l)` and `PossibleDriver("", l)`) or the integer start
line of a process (`ProcessDriver(start_line, l)`). -/
inductive PyScope
  | emptyStr
  | num (n : Int)
deriving DecidableEq, Repr

structure PyDriver where
  kind : DKind
  scope : PyScope
  line : Int
deriving DecidableEq, Repr

/-- CPython hash of a scope value: `hash("")` is 0 and `hash(n)` is `n` for
the (small) integers used as process start lines. -/
def scopeHash : PyScope → Int
  | .emptyStr => 0
  | .num n => n

/-- `Driver.__hash__` hashes the line; `ProcessDriver.__hash__` hashes the
scope; `PossibleDriver` inherits from `Driver`. -/
def pyHash (d : PyDriver) : Int :=
  match d.kind with
  | .process => scopeHash d.scope
  | _ => d.line

/-- Equality as dispatched on the stored set element: `Driver.__eq__`
compares lines, `ProcessDriver.__eq__` compares scopes, `PossibleDriver`
inherits `Driver.__eq__`. -/
def pyEq (stored other : PyDriver) : Bool :=
  match stored.kind with
  | .process => stored.scope == other.scope
  | _ => stored.line == other.line

/-- CPython set lookup: a stored element matches a candidate when their full
hashes are equal and the stored element's `__eq__` accepts the candidate. -/
def setContains (l : List PyDriver) (d : PyDriver) : Bool :=
  l.any (fun s => pyHash s == pyHash d && pyEq s d)

def pyInsert (acc : List PyDriver) (d : PyDriver) : List PyDriver :=
  if setContains acc d then acc else acc ++ [d]

/-- `set(drivers)`, listing the kept representatives in insertion order. -/
def pySetOf (l : List PyDriver) : List PyDriver := l.foldl pyInsert []

def isPossibleDriver (d : PyDriver) : Bool := d.kind == .possible

/-- `IdentifierWithType.GetUniqueDrivers`. -/
def getUniqueDrivers (drivers : List PyDriver) : List PyDriver := pySetOf drivers

/-- `IdentifierWithType.HasMultipleDrivers`: form the set of the full driver
list, drop the `PossibleDriver` instances from it, and ask whether more than
one driver remains. -/
def hasMultipleDrivers (drivers : List PyDriver) : Bool :=
  (pySetOf ((getUniqueDrivers drivers).filter (fun d => !isPossibleDriver d))).length > 1

/-- Modelled from the spec sentence: multiple drivers holds when the number
of distinct non-PossibleDriver entries of the driver list, distinctness
judged by each driver class's own equality, exceeds one. -/
def specHasMultipleDrivers (drivers : List PyDriver) : Bool :=
  (pySetOf (drivers.filter (fun d => !isPossibleDriver d))).length > 1

/-- Two drivers where the first, stored in a CPython set, would not absorb
the second on insertion. -/
def NonAbsorb (a b : PyDriver) : Prop :=
  ¬(pyHash a = pyHash b ∧ pyEq a b = true)

instance (a b : PyDriver) : Decidable (NonAbsorb a b) := by
  unfold NonAbsorb; infer_instance

/-! ## Multiple-driver diagnostics inside `CheckProcess` (source lines
2753-2778), for one watched signal.

Each body line that writes the signal appends a
`ProcessDriver(process_start_line, line)` to the signal's driver list and
then, when `HasMultipleDrivers` holds, emits a `runtime/multiple_drivers`
diagnostic whose message renders the lines of `GetDrivers()[:-1]` joined
with commas (`line_str.rsplit(',', 1)[0]`).  Columns of the anchor
(`LineRef.FromString`) are not modelled here; the claim is about counts,
lines, category, confidence and the message's line list. -/

/-- The `%d,` accumulation and final `rsplit(',', 1)[0]`. -/
def renderDriverLines (ls : List Nat) : String :=
  String.mk ((ls.foldl (fun s n => s ++ toString n ++ ",") "").toList.dropLast)

def multipleDriversMsg (w : String) (prev : List Nat) : String :=
  "Multiple drivers on signal '" ++ w ++ "'. Previous drivers are on line(s): " ++
    renderDriverLines prev ++ "."

def processDriver (scope l : Nat) : PyDriver :=
  ⟨.process, .num (scope : Int), (l : Int)⟩

/-- One write of the watched signal at body line `l`. -/
def checkWriteStep (w : String) (scope : Nat) (st : List PyDriver × List Diag) (l : Nat) :
    List PyDriver × List Diag :=
  let drivers := st.1 ++ [processDriver scope l]
  if hasMultipleDrivers drivers then
    let prev := drivers.dropLast.map (fun d => d.line.toNat)
    (drivers,
     st.2 ++ [⟨"runtime/multiple_drivers", 5, l, 0, 0, multipleDriversMsg w prev, prev⟩])
  else (drivers, st.2)

/-- Process the file's processes in order: each process is its start line
paired with the body lines on which it writes the watched signal. -/
def runProcessWrites (w : String) (procs : List (Nat × List Nat)) :
    List PyDriver × List Diag :=
  procs.foldl (fun st p => p.2.foldl (checkWriteStep w p.1) st) ([], [])

/-- Modelled from the spec: one diagnostic per write in a later process,
anchored at that write's line, listing all previously recorded driver
lines. -/
def expectedProcDiags (w : String) : List Nat → List Nat → List Diag
  | _, [] => []
  | prior, l :: ls =>
    ⟨"runtime/multiple_drivers", 5, l, 0, 0, multipleDriversMsg w prior, prior⟩ ::
      expectedProcDiags w (prior ++ [l]) ls

/-- Modelled from the spec: the diagnostics for every process after the
first, `prior` being the lines of all previously recorded drivers. -/
def expectedLaterDiags (w : String) : List Nat → List (Nat × List Nat) → List Diag
  | _, [] => []
  | prior, p :: rest =>
    expectedProcDiags w prior p.2 ++ expectedLaterDiags w (prior ++ p.2) rest

/-! ## The line cleanser (`IsCppString`, `CleanseComments`,
`CleansedLines._CollapseStrings`, `CleansedLines.__init__`) -/

/-- First index at which `pat` occurs in `l` (Python `str.find`, as used
with non-empty patterns). -/
def findSub (pat : List Char) : List Char → Option Nat
  | [] => none
  | c :: cs =>
    if List.isPrefixOf pat (c :: cs) then some 0
    else (findSub pat cs).map (· + 1)

def hasSub (pat l : List Char) : Bool := (findSub pat l).isSome

/-- Python `str.count` for a non-empty pattern: non-overlapping count
(fuel-driven so the kernel can evaluate it; the fuel equals the length). -/
def countSubAux (pat : List Char) : Nat → List Char → Nat
  | 0, _ => 0
  | _ + 1, [] => 0
  | fuel + 1, c :: cs =>
    if List.isPrefixOf pat (c :: cs) then
      1 + countSubAux pat fuel (cs.drop (pat.length - 1))
    else countSubAux pat fuel cs

def countSub (pat l : List Char) : Nat := countSubAux pat l.length l

/-- `line.replace('--', 'XX')`. -/
def replaceDashDash : List Char → List Char
  | [] => []
  | [c] => [c]
  | c1 :: c2 :: rest =>
    if c1 = '-' && c2 = '-' then 'X' :: 'X' :: replaceDashDash rest
    else c1 :: replaceDashDash (c2 :: rest)

/-- `IsCppString`: does the text end inside an open string literal?
The count of double quotes, minus escaped quotes and quoted quotes, is
odd (Python `& 1` on a possibly negative int is `emod 2`). -/
def isCppString (l : List Char) : Bool :=
  let m := replaceDashDash l
  ((countSub ['"'] m : Int) - countSub ['\\', '"'] m - countSub ['\'', '"', '\''] m) % 2 == 1

def isWordChar (c : Char) : Bool := c.isAlphanum || c = '_'

def wsCount (l : List Char) : Nat := (l.takeWhile isPySpace).length

/-- A `/*...*/` span starting here: its total length, the body running to
the first closing marker. -/
def matchComment (l : List Char) : Option Nat :=
  if List.isPrefixOf ['/', '*'] l then
    match findSub ['*', '/'] (l.drop 2) with
    | some j => some (j + 4)
    | none => none
  else none

/-- One position of the `_RE_PATTERN_CLEANSE_LINE_C_COMMENTS` scan: the
four alternatives in order — comment bracketed by whitespace to the end of
line, comment plus trailing whitespace, whitespace plus comment before a
non-word character (lookahead not consumed), bare comment.  Returns the
length of the span to delete, or none. -/
def tryMatchAt (l : List Char) : Option Nat :=
  match matchComment (l.drop (wsCount l)) with
  | none => none
  | some clen =>
    if (l.drop (wsCount l + clen)).all isPySpace then some l.length
    else if wsCount l = 0 then
      if 0 < wsCount (l.drop clen) then some (clen + wsCount (l.drop clen))
      else some clen
    else
      match l.drop (wsCount l + clen) with
      | [] => none
      | c :: _ => if isWordChar c then none else some (wsCount l + clen)

/-- The substitution scan of `_RE_PATTERN_CLEANSE_LINE_C_COMMENTS.sub`,
with fuel bounded by the line length. -/
def subCAux : Nat → List Char → List Char
  | 0, l => l
  | _ + 1, [] => []
  | fuel + 1, c :: rest =>
    match tryMatchAt (c :: rest) with
    | some k => subCAux fuel ((c :: rest).drop k)
    | none => c :: subCAux fuel rest

def cleanseLineCComments (l : List Char) : List Char := subCAux l.length l

/-- The `--` truncation step of `CleanseComments`: cut at the first `--`
whose prefix is not inside a string, then right-strip. -/
def truncAtComment (cs : List Char) : List Char :=
  match findSub ['-', '-'] cs with
  | some p => if isCppString (cs.take p) then cs else pyRstrip (cs.take p)
  | none => cs

/-- `CleanseComments`: truncate at the first `--` when its prefix is not
inside a string (then right-strip), and remove same-line C comments. -/
def cleanseComments (line : String) : String :=
  String.mk (cleanseLineCComments (truncAtComment line.toList))

def isHexDigitChar (c : Char) : Bool :=
  c.isDigit || ('a' ≤ c && c ≤ 'f') || ('A' ≤ c && c ≤ 'F')

/-- `_RE_PATTERN_INCLUDE.match`. -/
def matchesInclude (l : List Char) : Bool :=
  match l.drop (wsCount l) with
  | '#' :: r =>
    let r1 := r.drop (wsCount r)
    if List.isPrefixOf ['i', 'n', 'c', 'l', 'u', 'd', 'e'] r1 then
      let r2 := r1.drop 7
      match r2.drop (wsCount r2) with
      | c :: r4 =>
        if c = '<' || c = '"' then
          match r4.drop ((r4.takeWhile (fun d => d ≠ '>' && d ≠ '"')).length) with
          | d :: _ => d = '>' || d = '"'
          | [] => false
        else false
      | [] => false
    else false
  | _ => false

/-- `_RE_PATTERN_CLEANSE_LINE_ESCAPES.sub('', ...)`: drop escape
sequences. -/
def removeEscapesAux : Nat → List Char → List Char
  | 0, l => l
  | _ + 1, [] => []
  | fuel + 1, c :: rest =>
    if c = '\\' then
      match rest with
      | [] => ['\\']
      | d :: rest2 =>
        if d = 'a' || d = 'b' || d = 'f' || d = 'n' || d = 'r' || d = 't' || d = 'v' ||
            d = '?' || d = '"' || d = '\\' || d = '\'' then
          removeEscapesAux fuel rest2
        else if d.isDigit then
          removeEscapesAux fuel (rest.dropWhile Char.isDigit)
        else if d = 'x' && !(rest2.takeWhile isHexDigitChar).isEmpty then
          removeEscapesAux fuel (rest2.dropWhile isHexDigitChar)
        else '\\' :: removeEscapesAux fuel rest
    else c :: removeEscapesAux fuel rest

/-- The quote-collapsing loop of `_CollapseStrings`: find the first quote;
a double-quoted literal with a closing quote becomes an empty pair; an
unmatched double quote or any single quote copies the rest verbatim (the
single-quote collapsing is dead code in the source). -/
def collapseLoopAux : Nat → List Char → List Char
  | 0, l => l
  | fuel + 1, l =>
    let head := l.takeWhile (fun c => c ≠ '\'' && c ≠ '"')
    match l.drop head.length with
    | [] => l
    | q :: tail =>
      if q = '"' then
        match findSub ['"'] tail with
        | some j => head ++ ['"', '"'] ++ collapseLoopAux fuel (tail.drop (j + 1))
        | none => l
      else l

/-- `CleansedLines._CollapseStrings`. -/
def _CollapseStrings (elided : String) : String :=
  if matchesInclude elided.toList then elided
  else
    let e1 := removeEscapesAux elided.toList.length elided.toList
    String.mk (collapseLoopAux e1.length e1)

/-- The two derived views of `CleansedLines.__init__` (`raw_lines` is the
input itself). -/
structure Cleansed where
  lines : List String
  elided : List String
deriving DecidableEq, Repr

def cleansedLines (rawLines : List String) : Cleansed :=
  { lines := rawLines.map cleanseComments
    elided := (rawLines.map cleanseComments).map
      (fun l => cleanseComments (_CollapseStrings l)) }

/-! ## LineRef -/

/-- `LineRef`: line number plus column span.  Columns are integers so that
the bounds claimed by the spec can be stated honestly. -/
structure LineRef where
  line : Nat
  column : Int
  endColumn : Int
deriving DecidableEq, Repr

def LineRef.OnlyLine (lineNum : Nat) : LineRef := ⟨lineNum, 0, 1⟩

def isWordOpt : Option Char → Bool
  | none => false
  | some c => isWordChar c

/-- `\b` between an adjacent pair of characters (none at the ends). -/
def wordBoundary (a b : Option Char) : Bool := isWordOpt a != isWordOpt b

/-- `re.search(r'\b(name)\b', line)`: index of the leftmost occurrence of
`name` flanked by word boundaries. -/
def findWordIdxAux (name : List Char) : Option Char → List Char → Option Nat
  | _, [] => none
  | prev, c :: rest =>
    if List.isPrefixOf name (c :: rest) && wordBoundary prev (c :: rest).head? &&
        wordBoundary name.getLast? ((c :: rest).drop name.length).head? then some 0
    else (findWordIdxAux name (some c) rest).map (· + 1)

def findWordIdx (name line : List Char) : Option Nat :=
  findWordIdxAux name none line

/-- `LineRef.FromString`: anchor at the leftmost word-bounded occurrence of
`name`, or at column 0 with the name's length when the search fails. -/
def LineRef.FromString (lineNum : Nat) (line name : String) : LineRef :=
  match findWordIdx name.toList line.toList with
  | some p => ⟨lineNum, (p : Int), (p : Int) + name.length⟩
  | none => ⟨lineNum, 0, (name.length : Int)⟩

/-- `re.search(r'(?s:.*)\b(name)\b', line)`: the greedy prefix makes this
the rightmost word-bounded occurrence. -/
def findWordIdxRAux (name : List Char) : Option Char → List Char → Option Nat
  | _, [] => none
  | prev, c :: rest =>
    match (findWordIdxRAux name (some c) rest).map (· + 1) with
    | some k => some k
    | none =>
      if List.isPrefixOf name (c :: rest) && wordBoundary prev (c :: rest).head? &&
          wordBoundary name.getLast? ((c :: rest).drop name.length).head? then some 0
      else none

/-- `LineRef.FromStringR`. -/
def LineRef.FromStringR (lineNum : Nat) (line name : String) : LineRef :=
  match findWordIdxRAux name.toList none line.toList with
  | some p => ⟨lineNum, (p : Int), (p : Int) + name.length⟩
  | none => ⟨lineNum, 0, (name.length : Int)⟩

def mkDiag (cat : String) (confidence : Nat) (ref : LineRef) (msg : String) : Diag :=
  ⟨cat, confidence, ref.line, ref.column, ref.endColumn, msg, []⟩

/-! ## NOLINT parsing (`ParseNolintSuppressions`) -/

def _ERROR_CATEGORIES : List String := [
  "build/arithmetic", "build/deprecated", "build/filename", "build/include_alpha",
  "build/port_modes", "build/port_types", "build/shadow", "build/unused",
  "build/vhdl2008", "build/vhdl2008/sensitivity", "build/vhdl2008/outputs",
  "legal/copyright", "readability/booleans", "readability/capitalization",
  "readability/constants", "readability/declarations", "readability/components",
  "readability/fsm", "readability/header", "readability/identifiers",
  "readability/multiline_comment", "readability/naming", "readability/nolint",
  "readability/nul", "readability/others", "readability/portmaps",
  "readability/reserved", "readability/todo", "readability/units",
  "readability/utf8", "runtime/combinational_loop", "runtime/integers",
  "runtime/latches", "runtime/loops", "runtime/multiple_drivers",
  "runtime/rising_edge", "runtime/sensitivity", "runtime/variables",
  "whitespace/blank_line", "whitespace/comments", "whitespace/end_of_line",
  "whitespace/ending_newline", "whitespace/indent", "whitespace/line_length",
  "whitespace/newline", "whitespace/tab", "whitespace/todo"]

inductive NolintKind
  | plain
  | nextline
  | beginRegion
  | endRegion
deriving DecidableEq, Repr

/-- The optional group `(\([^)]+\))?` taken right after the marker: an open
parenthesis, at least one non-parenthesis character, a close parenthesis. -/
def nolintCategoryGroup (l : List Char) : Option (List Char) :=
  match l with
  | '(' :: rest =>
    match findSub [')'] rest with
    | some j => if j = 0 then none else some ('(' :: (rest.take j ++ [')']))
    | none => none
  | _ => none

/-- `\b` after the marker word: end of line or a non-word character. -/
def boundaryAfterOk : List Char → Bool
  | [] => true
  | c :: _ => !isWordChar c

/-- Try `\bNOLINT(NEXTLINE|BEGIN|END)?\b(\([^)]+\))?` at this position;
`prevIsWord` tells whether the preceding character is a word character. -/
def nolintAt (prevIsWord : Bool) (l : List Char) : Option (NolintKind × Option (List Char)) :=
  if prevIsWord then none
  else if List.isPrefixOf ['N', 'O', 'L', 'I', 'N', 'T'] l then
    if List.isPrefixOf ['N', 'E', 'X', 'T', 'L', 'I', 'N', 'E'] (l.drop 6) &&
        boundaryAfterOk (l.drop 14) then
      some (.nextline, nolintCategoryGroup (l.drop 14))
    else if List.isPrefixOf ['B', 'E', 'G', 'I', 'N'] (l.drop 6) &&
        boundaryAfterOk (l.drop 11) then
      some (.beginRegion, nolintCategoryGroup (l.drop 11))
    else if List.isPrefixOf ['E', 'N', 'D'] (l.drop 6) && boundaryAfterOk (l.drop 9) then
      some (.endRegion, nolintCategoryGroup (l.drop 9))
    else if boundaryAfterOk (l.drop 6) then
      some (.plain, nolintCategoryGroup (l.drop 6))
    else none
  else none

def findNolintAux : Bool → List Char → Option (NolintKind × Option (List Char))
  | _, [] => none
  | prevIsWord, c :: rest =>
    match nolintAt prevIsWord (c :: rest) with
    | some r => some r
    | none => findNolintAux (isWordChar c) rest

/-- `Search(r'\bNOLINT(NEXTLINE|BEGIN|END)?\b(\([^)]+\))?', raw_line)`:
leftmost match, with the raw parenthesised group. -/
def findNolint (line : String) : Option (NolintKind × Option String) :=
  (findNolintAux false line.toList).map (fun r => (r.1, r.2.map String.mk))

/-- `category[1:-1]`: strip the parentheses off the group. -/
def stripGroup (g : String) : String := String.mk (g.toList.drop 1).dropLast

def regionAdds (region : List String) (linenum : Nat) : List (String × Nat) :=
  region.map (fun c => (c, linenum))

/-- The additions one NOLINT directive makes, before the closing region
loop: lines added to the suppress-all set, category/line pairs added, the
updated region set, and the diagnostics emitted.  (The source also checks
that the group starts with an open and ends with a close parenthesis; by
construction of the group that is always true.) -/
def nolintDirectiveAdds (rawLine : String) (linenum : Nat) (region : List String) :
    List Nat × List (String × Nat) × List String × List Diag :=
  match findNolint rawLine with
  | none => ([], [], region, [])
  | some (kind, catgrp) =>
    if catgrp = none ∨ catgrp = some "(*)" then
      ([if kind = .nextline then linenum + 1 else linenum], [], region, [])
    else
      match catgrp with
      | none => ([], [], region, [])
      | some g =>
        if stripGroup g ∈ _ERROR_CATEGORIES then
          ([], [(stripGroup g, if kind = .nextline then linenum + 1 else linenum)],
           (if kind = .beginRegion then
              (if stripGroup g ∈ region then region else region ++ [stripGroup g])
            else if kind = .endRegion then region.filter (fun x => x ≠ stripGroup g)
            else region),
           [])
        else
          ([], [], region,
            [mkDiag "readability/nolint" 5
              (LineRef.FromString linenum rawLine (stripGroup g))
              ("Unknown NOLINT error category: " ++ stripGroup g)])

/-- `ParseNolintSuppressions`: apply the directive's additions, then add
the current line to every category whose region is active. -/
def parseNolintSuppressions (rawLine : String) (linenum : Nat) (st : SuppState) :
    SuppState × List Diag :=
  ({ suppAll := st.suppAll ++ (nolintDirectiveAdds rawLine linenum st.region).1,
     suppCat := st.suppCat ++ (nolintDirectiveAdds rawLine linenum st.region).2.1 ++
       regionAdds (nolintDirectiveAdds rawLine linenum st.region).2.2.1 linenum,
     region := (nolintDirectiveAdds rawLine linenum st.region).2.2.1 },
   (nolintDirectiveAdds rawLine linenum st.region).2.2.2)

/-- The per-line loop of `ProcessFileData` that feeds every raw line to
`ParseNolintSuppressions` in order. -/
def processNolintLinesAux : List String → Nat → SuppState → SuppState × List Diag
  | [], _, st => (st, [])
  | l :: ls, n, st =>
    ((processNolintLinesAux ls (n + 1) (parseNolintSuppressions l n st).1).1,
     (parseNolintSuppressions l n st).2 ++
       (processNolintLinesAux ls (n + 1) (parseNolintSuppressions l n st).1).2)

def processNolintFile (lines : List String) : SuppState × List Diag :=
  processNolintLinesAux lines 0 ⟨[], [], []⟩

/-! ## The declaration parser (`MatchDeclaration`)

The regex
`\s*(\b(variable|signal|constant)\b)?\s*(.+?)\s*:\s*(\b\w+\b)?\s*(\b\w[^;:]+)\s*(:=\s*([^;]+))?;?`
is modelled on a whole cleansed line (`pos = 0`, `endpos = None`): optional
declaration keyword, lazy name list up to a colon, optional direction word,
and a type expression starting at a word character and running greedily up
to a semicolon or colon.  The lazy groups are realised by trying candidate
colons left to right and the optional direction with a fallback, as the
engine's backtracking does; when no colon admits a nonempty name, the
engine shortens the greedy `\s*` so that the lazy `(.+?)` captures the
last whitespace character before a colon directly following the
whitespace run (the whitespace-only-name fallback of `firstGoodSplit`).
The multi-line aggregate-initializer rewrite
(which only reassigns the returned `init`/`pos` and emits nothing) is not
modelled; `init`/`pos` are not returned. -/

/-- Python `str.strip` on a character list. -/
def stripList (l : List Char) : List Char := pyRstrip (l.dropWhile isPySpace)

/-- The optional declaration keyword, case-insensitively, with a word
boundary after it.  Returns the lowered keyword and the rest. -/
def tryKeyword (l : List Char) : Option (String × List Char) :=
  if (l.take 8).map Char.toLower = ['v', 'a', 'r', 'i', 'a', 'b', 'l', 'e'] &&
      boundaryAfterOk (l.drop 8) then some ("variable", l.drop 8)
  else if (l.take 6).map Char.toLower = ['s', 'i', 'g', 'n', 'a', 'l'] &&
      boundaryAfterOk (l.drop 6) then some ("signal", l.drop 6)
  else if (l.take 8).map Char.toLower = ['c', 'o', 'n', 's', 't', 'a', 'n', 't'] &&
      boundaryAfterOk (l.drop 8) then some ("constant", l.drop 8)
  else none

/-- Group 5, `\b\w[^;:]+`: a word character then at least one more
character, greedily up to a semicolon or colon. -/
def parseStype (m : List Char) : Option (List Char) :=
  match m with
  | c :: rest =>
    if isWordChar c then
      match rest.takeWhile (fun d => d ≠ ';' && d ≠ ':') with
      | [] => none
      | body => some (c :: body)
    else none
  | [] => none

/-- Groups 4 and 5 after the colon: try the optional direction word first,
fall back to no direction. -/
def parseAfterColon (m : List Char) : Option (Option String × List Char) :=
  match m.drop (wsCount m) with
  | m1 =>
    match m1.takeWhile isWordChar with
    | [] => (parseStype m1).map (fun st => (none, st))
    | w =>
      match parseStype ((m1.drop w.length).drop (wsCount (m1.drop w.length))) with
      | some st => some (some (String.mk w), st)
      | none => (parseStype m1).map (fun st => (none, st))

def colonIdxs : List Char → List Nat
  | [] => []
  | c :: rest =>
    if c = ':' then 0 :: (colonIdxs rest).map (· + 1)
    else (colonIdxs rest).map (· + 1)

/-- One candidate colon for the `\s*(.+?)\s*:` piece on the
whitespace-stripped text `m`: the name text right-stripped (empty means
the lazy group cannot stop at this colon), the remainder parsed as
direction and type. -/
def goodSplitAt (m : List Char) (j : Nat) : Option (List Char × Option String × List Char) :=
  match pyRstrip (m.take j) with
  | [] => none
  | names =>
    match parseAfterColon (m.drop (j + 1)) with
    | some (d, st) => some (names, d, st)
    | none => none

def firstGoodSplitAux (m : List Char) : List Nat → Option (List Char × Option String × List Char)
  | [] => none
  | j :: js =>
    match goodSplitAt m j with
    | some r => some r
    | none => firstGoodSplitAux m js

/-- The `\s*(.+?)\s*:` piece on the raw text `m0` (leading whitespace
included): with the greedy `\s*` at full length the lazy `(.+?)` stops at
each colon in turn, capturing the right-stripped nonempty name text; only
when every colon fails does the engine shorten the `\s*`, whose single
novel outcome is a whitespace-only name — the last whitespace character —
for a colon standing directly after the whitespace run. -/
def firstGoodSplit (m0 : List Char) : Option (List Char × Option String × List Char) :=
  match firstGoodSplitAux (m0.drop (wsCount m0)) (colonIdxs (m0.drop (wsCount m0))) with
  | some r => some r
  | none =>
    if 1 ≤ wsCount m0 ∧ (m0.drop (wsCount m0)).head? = some ':' then
      (parseAfterColon ((m0.drop (wsCount m0)).drop 1)).map
        (fun p => ([m0.getD (wsCount m0 - 1) ' '], p.1, p.2))
    else none

structure DeclMatch where
  declType : Option String
  nameList : List String
  direction : Option String
  stype : Option String
deriving DecidableEq, Repr

/-- The post-checks of `MatchDeclaration`: multiple names per declaration,
and the missing-range errors for the unranged integer types when the
declaration is not a constant and range-checking is requested. -/
def declDiags (lineNum : Nat) (line : String) (checkIntRange : Bool) (dt : Option String)
    (nameListLen : Nat) (names : String) (stype : String) : List Diag :=
  (if nameListLen > 1 then
    [mkDiag "readability/declarations" 1 (LineRef.FromString lineNum line names)
      "Avoid using multiple declarations per line."]
  else []) ++
  (if dt ≠ some "constant" && checkIntRange then
    (if stype = "integer" then
      [mkDiag "runtime/integers" 5 (LineRef.FromString lineNum line stype)
        "Integer types must have a range specified."]
    else []) ++
    (if stype = "natural" then
      [mkDiag "runtime/integers" 5 (LineRef.FromString lineNum line stype)
        "Natural types must have a range specified."]
    else []) ++
    (if stype = "positive" then
      [mkDiag "runtime/integers" 5 (LineRef.FromString lineNum line stype)
        "Positive types must have a range specified."]
    else [])
  else [])

/-- `MatchDeclaration` on one cleansed line: the parsed groups and the
diagnostics it emits. -/
def matchDeclaration (lineNum : Nat) (line : String) (checkIntRange : Bool)
    (reqDeclType : Option String) : Option DeclMatch × List Diag :=
  let cs := line.toList
  let body := cs.drop (wsCount cs)
  let parsed :=
    match tryKeyword body with
    | some (kw, rest) =>
      match firstGoodSplit rest with
      | some r => some (some kw, r)
      | none => (firstGoodSplit cs).map (fun r => (none, r))
    | none => (firstGoodSplit cs).map (fun r => (none, r))
  match parsed with
  | none => (none, [])
  | some (dt, names, direction, stypeRaw) =>
    if reqDeclType ≠ none ∧ reqDeclType ≠ dt then (none, [])
    else
      (some ⟨dt, (splitCharList ',' (names.filter (fun c => !isPySpace c))).map String.mk,
         direction, some (String.mk (stripList stypeRaw))⟩,
       declDiags lineNum line checkIntRange dt
         ((splitCharList ',' (names.filter (fun c => !isPySpace c))).map String.mk).length
         (String.mk names) (String.mk (stripList stypeRaw)))

/-! ## Process sensitivity checks (`FindUsedVariables`, `CheckProcess`)

`CheckProcess` (lines 2611-2805) is modelled for its sensitivity-family
diagnostics: the categories `build/vhdl2008/sensitivity` and
`runtime/sensitivity` are emitted nowhere else, so the model reproduces
exactly those emissions.  The sub-checkers called from its loops
(identifiers, variables, constants, asserts, case and loop statements)
emit other categories and are omitted, as are the driver bookkeeping
(modelled separately) and the `runtime/combinational_loop` and clock
naming checks.  A nested function or procedure declaration inside a
process (which makes the scan skip lines) and an unterminated nested
case or loop (early return) are outside the model.  `signals` stands for
the keys of `_signal_identifiers` (lower-cased declared signal names);
`sens` is the sensitivity list as parsed by `CheckProcesses`
(lower-cased items). -/

/-- Python `str.lower()` restricted to ASCII identifiers. -/
def lowerStr (s : String) : String := String.mk (s.toList.map Char.toLower)

def isWordDot (c : Char) : Bool := isWordChar c || c = '.'

/-- Candidate lengths for group 2 of `_PATTERN_IDENTIFIER_USE`
(`\w[\w\.]*`), greedy first. -/
def g2lens (m : List Char) : List Nat :=
  match m with
  | [] => []
  | c :: rest =>
    if isWordChar c then
      ((List.range ((rest.takeWhile isWordDot).length + 1)).map (· + 1)).reverse
    else []

def closeParenIdxs : List Char → List Nat
  | [] => []
  | c :: rest =>
    if c = ')' then 0 :: (closeParenIdxs rest).map (· + 1)
    else (closeParenIdxs rest).map (· + 1)

/-- Candidate consumed lengths for group 3 of `_PATTERN_IDENTIFIER_USE`
(`(\s*\(.*?\))?`): present with the lazily nearest closing parenthesis
first, then absent. -/
def g3lens (m : List Char) : List Nat :=
  (match m.drop (wsCount m) with
   | '(' :: inner => (closeParenIdxs inner).map (fun j => wsCount m + 1 + j + 1)
   | _ => []) ++ [0]

/-- Candidate `(group 2 length, group 3 length)` pairs for
`_PATTERN_IDENTIFIER_USE`, in the engine's backtracking order. -/
def gParses (m : List Char) : List (Nat × Nat) :=
  (g2lens m).flatMap (fun a => (g3lens (m.drop a)).map (fun b => (a, b)))

/-- `(.*);` is greedy, so the captured text runs to the last semicolon. -/
def lastSemi : List Char → Option Nat
  | [] => none
  | c :: rest =>
    match (lastSemi rest).map (· + 1) with
    | some k => some k
    | none => if c = ';' then some 0 else none

/-- `\s*[<:]\=(.*);` after the identifier group: group 4. -/
def opTail (m : List Char) : Option (List Char) :=
  match m.drop (wsCount m) with
  | c :: '=' :: rest =>
    if c = '<' || c = ':' then (lastSemi rest).map (fun k => rest.take k)
    else none
  | _ => none

/-- `Match(r'.*?((\w[\w\.]*)(\s*\(.*?\))?)\s*[<:]\=(.*);', line)`: the
lazy prefix takes the earliest start position admitting a parse.
Returns groups 2 and 4. -/
def findAssign : List Char → Option (List Char × List Char)
  | [] => none
  | c :: rest =>
    match (gParses (c :: rest)).findSome? (fun p =>
        (opTail ((c :: rest).drop (p.1 + p.2))).map
          (fun rhs => ((c :: rest).take p.1, rhs))) with
    | some r => some r
    | none => findAssign rest

def isWordTick (c : Char) : Bool := isWordChar c || c = '\''

/-- Maximal runs of `[\w']` characters (fuel-driven; the fuel equals the
length). -/
def tokenRunsAux : Nat → List Char → List (List Char)
  | 0, _ => []
  | _, [] => []
  | fuel + 1, c :: rest =>
    if isWordTick c then
      (c :: rest.takeWhile isWordTick) :: tokenRunsAux fuel (rest.dropWhile isWordTick)
    else tokenRunsAux fuel rest

/-- `re.findall(r"\b[\w']+\b", m)`: each maximal `[\w']` run trimmed of
leading and trailing apostrophes (the word boundaries force word
characters at both ends), dropped when no word character remains. -/
def wordsOf (m : List Char) : List String :=
  ((tokenRunsAux m.length m).map (fun r =>
      ((r.dropWhile (fun c => c = '\'')).reverse.dropWhile (fun c => c = '\'')).reverse)).filterMap
    (fun r => if r.isEmpty then none else some (String.mk r))

/-- Python set construction from a list of strings: the distinct
elements, in first-occurrence order. -/
def pyDedupAux (seen : List String) : List String → List String
  | [] => []
  | x :: rest =>
    if seen.contains x then pyDedupAux seen rest
    else x :: pyDedupAux (x :: seen) rest

/-- `FindUsedVariables` (lines 2583-2608) with `direct_lhs_name = False`:
the write and read identifier sets (filtered to declared signals) and
the assignment flag. -/
def findUsedVariables (signals : List String) (line : String) :
    List String × List String × Bool :=
  match findAssign line.toList with
  | some (lhs, rhs) =>
    (pyDedupAux [] ((wordsOf lhs).filter (fun i => signals.contains (lowerStr i))),
     pyDedupAux [] ((wordsOf rhs).filter (fun i => signals.contains (lowerStr i))),
     true)
  | none =>
    ([],
     pyDedupAux [] ((wordsOf line.toList).filter (fun i => signals.contains (lowerStr i))),
     false)

/-- The `'event` continuation after the identifier group (`Match`
compiles its patterns with `SRE_FLAG_IGNORECASE`, line 1379, so the
letters match in either case). -/
def tickCont (m : List Char) : Bool :=
  (m.take 6).map Char.toLower = ['\'', 'e', 'v', 'e', 'n', 't']

/-- `Match(r'.*?(IDENT)\'event', line)`: group 1 at the earliest start
position. -/
def tickMatch : List Char → Option String
  | [] => none
  | c :: rest =>
    match (gParses (c :: rest)).findSome? (fun p =>
        if tickCont ((c :: rest).drop (p.1 + p.2)) then
          some (String.mk ((c :: rest).take (p.1 + p.2)))
        else none) with
    | some s => some s
    | none => tickMatch rest

/-- `kw\s*\((IDENT)\)` at the head of `m`; the keyword is given in lower
case and compared case-insensitively (`Match` is IGNORECASE). -/
def edgeAt (kw : List Char) (m : List Char) : Option String :=
  if (m.take kw.length).map Char.toLower = kw then
    match (m.drop kw.length).drop (wsCount (m.drop kw.length)) with
    | '(' :: inner =>
      (gParses inner).findSome? (fun p =>
        match inner.drop (p.1 + p.2) with
        | ')' :: _ => some (String.mk (inner.take (p.1 + p.2)))
        | _ => none)
    | _ => none
  else none

/-- `.*\b` then `f`: the greedy prefix prefers the rightmost word-bounded
start position. -/
def scanGreedy (f : List Char → Option String) : Option Char → List Char → Option String
  | _, [] => none
  | prev, c :: rest =>
    match scanGreedy f (some c) rest with
    | some s => some s
    | none => if wordBoundary prev (some c) then f (c :: rest) else none

/-- The per-line clock scan of the sequential-process detection (lines
2640-2661): tick-event, then `rising_edge`, then `falling_edge`. -/
def seqMatchLine (m : List Char) : Option String :=
  match tickMatch m with
  | some s => some s
  | none =>
    match scanGreedy (edgeAt ("rising_edge".toList)) none m with
    | some s => some s
    | none => scanGreedy (edgeAt ("falling_edge".toList)) none m

/-- The sequential-process scan over `[l, l + count)`: the first line with
a clock pattern, with its clock name. -/
def seqScanAux (lines : List String) : Nat → Nat → Option (Nat × String)
  | _, 0 => none
  | l, count + 1 =>
    match seqMatchLine (lines.getD l "").toList with
    | some s => some (l, s)
    | none => seqScanAux lines (l + 1) count

/-- The `begin` search (the while loop of lines 2679-2712, sans the
declaration sub-checks): the first line in the range matching
`.*\bbegin\b` — case-insensitively, as `Match` is IGNORECASE — else the
default (one past the end line). -/
def findBeginAux (lines : List String) : Nat → Nat → Nat → Nat
  | _, 0, dflt => dflt
  | l, count + 1, dflt =>
    if (findWordIdx ("begin".toList) ((lines.getD l "").toList.map Char.toLower)).isSome then l
    else findBeginAux lines (l + 1) count dflt

/-- The body loop of `CheckProcess` (lines 2716-2784) restricted to the
`process_inputs` accumulation and the missing-signal check: returns the
accumulated inputs and the emitted diagnostics. -/
def bodyLoopAux (signals sens lines : List String) (allF seqF simF : Bool) :
    Nat → Nat → List String → List String × List Diag
  | _, 0, inputs => (inputs, [])
  | l, count + 1, inputs =>
    let pline := lines.getD l ""
    let reads := (findUsedVariables signals pline).2.1
    let ds :=
      if !simF && !seqF then
        (reads.filter (fun r => !sens.contains (lowerStr r) && !allF)).map (fun r =>
          mkDiag "runtime/sensitivity" 5 (LineRef.FromString l pline r)
            ("Missing signal '" ++ r ++ "' from sensitivity list"))
      else []
    let rest := bodyLoopAux signals sens lines allF seqF simF (l + 1) count
      (inputs ++ reads.map lowerStr)
    (rest.1, ds ++ rest.2)

/-- The sensitivity-family diagnostics of `CheckProcess`, in emission
order: VHDL-2008 `all`, duplicate items, the sequential-branch clock
checks, the per-body-line missing signals, the unread extras. -/
def checkProcessSens (lines : List String) (startLine endLine : Nat)
    (sens signals : List String) : List Diag :=
  let sline := lines.getD startLine ""
  let allF := sens.contains "all"
  let simF := sens.isEmpty
  let seq := seqScanAux lines startLine (endLine - startLine)
  let bodyLine := findBeginAux lines startLine (endLine + 1 - startLine) (endLine + 1)
  let body := bodyLoopAux signals sens lines allF seq.isSome simF bodyLine
    (endLine - bodyLine) []
  (if allF then
    [mkDiag "build/vhdl2008/sensitivity" 4 (LineRef.FromString startLine sline "all")
      "Avoid VHDL2008 construct 'all' in sensitivity list."]
  else []) ++
  ((pyDedupAux [] sens).filter (fun k => sens.count k > 1)).map (fun d =>
    mkDiag "runtime/sensitivity" 4 (LineRef.FromStringR startLine sline d)
      ("Duplicate signal '" ++ d ++ "' in sensitivity list.")) ++
  (match seq with
   | some (clkLine, clkName) =>
     if !simF then
       (if !sens.contains (lowerStr clkName) && !allF then
         [mkDiag "runtime/sensitivity" 5
           (LineRef.FromString clkLine (lines.getD clkLine "") clkName)
           ("Missing clock '" ++ clkName ++ "' from sensitivity list")]
       else []) ++
       (if sens.length > 2 then
         [mkDiag "runtime/sensitivity" 4 (LineRef.OnlyLine startLine)
           "Superfluous items in sensitivity list. Sequential processes should have at most 2 items (clock, async reset)."]
       else [])
     else []
   | none => []) ++
  body.2 ++
  (sens.filter (fun item => !body.1.contains item && item ≠ "all")).map (fun item =>
    mkDiag "runtime/sensitivity" 4 (LineRef.FromString startLine sline item)
      ("Extra signal '" ++ item ++ "' in sensitivity list."))

/-- `CheckForNewlineAtEOF` (lines 1652-1666): fires when the raw array is
shorter than 3 or its last-but-one entry is non-empty, anchored at that
entry. -/
def checkForNewlineAtEOF (lines : List String) : List Diag :=
  if lines.length < 3 ∨ (lines.getD (lines.length - 2) "").length ≠ 0 then
    [⟨"whitespace/ending_newline", 5, lines.length - 2,
      ((lines.getD (lines.length - 2) "").length : Int) - 1,
      ((lines.getD (lines.length - 2) "").length : Int) - 1 + 1,
      "Could not find a newline character at the end of the file.", []⟩]
  else []

theorem pyStartsWith_plus_not_minus {f : String} (h : pyStartsWith f "+" = true) :
    pyStartsWith f "-" = false := by
  unfold pyStartsWith at h ⊢
  rw [show ("+" : String).toList = ['+'] from rfl] at h
  rw [show ("-" : String).toList = ['-'] from rfl]
  generalize hl : f.toList = l at h ⊢
  cases l with
  | nil => simp [List.isPrefixOf] at h
  | cons c cs =>
    simp only [List.isPrefixOf, Bool.and_eq_true, beq_iff_eq] at h
    obtain ⟨hc, -⟩ := h
    subst hc
    simp [List.isPrefixOf]

theorem filtersWalk_eq_lastMatch (category : String) (filters : List String) (st : Bool)
    (h : ∀ f ∈ filters, pyStartsWith f "+" = true ∨ pyStartsWith f "-" = true) :
    filtersWalk category filters st = some (lastMatchOutcome category filters st) := by
  induction filters generalizing st with
  | nil => simp [filtersWalk, lastMatchOutcome]
  | cons f fs ih =>
    have hf := h f (by simp)
    have hfs : ∀ g ∈ fs, pyStartsWith g "+" = true ∨ pyStartsWith g "-" = true := by
      intro g hg; exact h g (by simp [hg])
    by_cases hm : pyStartsWith category (strDrop f 1) = true
    · rcases hf with hplus | hminus
      · have hnm := pyStartsWith_plus_not_minus hplus
        rw [filtersWalk, if_neg (by simp [hnm]), if_pos hplus, if_pos hm, ih false hfs]
        unfold lastMatchOutcome
        rw [List.filter_cons_of_pos (by simpa using hm), List.getLast?_cons]
        cases hgl : (fs.filter (fun g => pyStartsWith category (strDrop g 1))).getLast? with
        | none => simp [hgl, hnm]
        | some g => simp [hgl]
      · rw [filtersWalk, if_pos hminus, if_pos hm, ih true hfs]
        unfold lastMatchOutcome
        rw [List.filter_cons_of_pos (by simpa using hm), List.getLast?_cons]
        cases hgl : (fs.filter (fun g => pyStartsWith category (strDrop g 1))).getLast? with
        | none => simp [hgl, hminus]
        | some g => simp [hgl]
    · have hstep : filtersWalk category (f :: fs) st = filtersWalk category fs st := by
        rcases hf with hplus | hminus
        · rw [filtersWalk, if_neg (by simp [pyStartsWith_plus_not_minus hplus]),
            if_pos hplus, if_neg hm]
        · rw [filtersWalk, if_pos hminus, if_neg hm]
      rw [hstep, ih st hfs]
      unfold lastMatchOutcome
      rw [List.filter_cons_of_neg (by simpa using hm)]

/-- C5: the filter gate walks the list left to right, a minus entry marks the
category filtered when the category name starts with the entry's text, a plus
entry unmarks it under the same test, the last matching entry decides, and
the diagnostic is dropped iff the final state is filtered.  With filters
-X,+X/Y a diagnostic of category X/Y passes and one of category X/Z drops. -/
theorem C5_filter_last_match_wins (category : String) (filters : List String)
    (h : ∀ f ∈ filters, pyStartsWith f "+" = true ∨ pyStartsWith f "-" = true) :
    filtersWalk category filters false = some (lastMatchOutcome category filters false) ∧
    shouldPrintError noSupp "X/Y" 5 1 0 ["-X", "+X/Y"] = some true ∧
    shouldPrintError noSupp "X/Z" 5 1 0 ["-X", "+X/Y"] = some false := by
  refine ⟨filtersWalk_eq_lastMatch category filters false h, by decide, by decide⟩

theorem C5_filter_last_match_wins_witness :
    filtersWalk "X/Z" ["-X", "+X/Y"] false =
      some (lastMatchOutcome "X/Z" ["-X", "+X/Y"] false) ∧
    shouldPrintError noSupp "X/Y" 5 1 0 ["-X", "+X/Y"] = some true ∧
    shouldPrintError noSupp "X/Z" 5 1 0 ["-X", "+X/Y"] = some false :=
  C5_filter_last_match_wins "X/Z" ["-X", "+X/Y"] (by decide)

theorem shouldPrintError_iff (st : SuppState) (category : String)
    (confidence linenum verboseLevel : Nat) (filters : List String) :
    shouldPrintError st category confidence linenum verboseLevel filters = some true ↔
      (isErrorSuppressedByNolint st category linenum = false ∧ verboseLevel ≤ confidence ∧
       filtersWalk category filters false = some false) := by
  unfold shouldPrintError
  by_cases hs : isErrorSuppressedByNolint st category linenum
  · simp [hs]
  · by_cases hc : confidence < verboseLevel
    · simp [hs, hc, Nat.not_le_of_lt hc]
    · have hvc : verboseLevel ≤ confidence := Nat.le_of_not_lt hc
      cases hw : filtersWalk category filters false with
      | none => simp [hs, hc, hw]
      | some b =>
        cases b with
        | true => simp [hs, hc, hw]
        | false => simp [hs, hc, hw, hvc]

theorem shouldPrintError_mono (st : SuppState) (category : String)
    (confidence linenum : Nat) (filters : List String) {v1 v2 : Nat} (h12 : v1 ≤ v2)
    (h2 : shouldPrintError st category confidence linenum v2 filters = some true) :
    shouldPrintError st category confidence linenum v1 filters = some true := by
  rcases (shouldPrintError_iff st category confidence linenum v2 filters).mp h2 with
    ⟨ha, hb, hc⟩
  exact (shouldPrintError_iff st category confidence linenum v1 filters).mpr
    ⟨ha, Nat.le_trans h12 hb, hc⟩

/-- C4: a diagnostic is emitted iff it passes all three gates (not NOLINT
suppressed, confidence at least the verbose level, survives the filter walk),
and raising the verbose level can only remove diagnostics, never add them. -/
theorem C4_gate_conjunction (st : SuppState) (category : String) (confidence linenum : Nat)
    (filters : List String) :
    (∀ verboseLevel,
      shouldPrintError st category confidence linenum verboseLevel filters = some true ↔
        (isErrorSuppressedByNolint st category linenum = false ∧ verboseLevel ≤ confidence ∧
         filtersWalk category filters false = some false)) ∧
    (∀ v1 v2, v1 ≤ v2 →
      shouldPrintError st category confidence linenum v2 filters = some true →
      shouldPrintError st category confidence linenum v1 filters = some true) ∧
    (∀ v1 v2 (cands : List (SuppState × String × Nat × Nat)), v1 ≤ v2 →
      ∀ x ∈ emittedDiags v2 filters cands, x ∈ emittedDiags v1 filters cands) := by
  refine ⟨fun v => shouldPrintError_iff st category confidence linenum v filters,
    fun v1 v2 h12 => shouldPrintError_mono st category confidence linenum filters h12, ?_⟩
  intro v1 v2 cands h12 x hx
  rw [emittedDiags, List.mem_filter] at hx ⊢
  refine ⟨hx.1, ?_⟩
  have h2 : shouldPrintError x.1 x.2.1 x.2.2.1 x.2.2.2 v2 filters = some true := by
    have := hx.2
    simpa [beq_iff_eq] using this
  have h1 := shouldPrintError_mono x.1 x.2.1 x.2.2.1 x.2.2.2 filters h12 h2
  simp [beq_iff_eq, h1]

/-- C10: every filter list installed by a non-raising AddFilters (and hence
SetFilters, which resets to the defaults and calls AddFilters) has every
entry starting with a plus or a minus, so the assert-False fall-through of
the filter walk in _ShouldPrintError (modelled by the value none) is
unreachable during diagnostic emission. -/
theorem C10_validated_filters_no_assert (current : List String) (s : String)
    (fs : List String) (h : addFilters current s = .ok fs) :
    (∀ f ∈ fs, pyStartsWith f "+" = true ∨ pyStartsWith f "-" = true) ∧
    (∀ st category confidence linenum verboseLevel,
      (shouldPrintError st category confidence linenum verboseLevel fs).isSome = true) := by
  unfold addFilters at h
  split at h
  case isTrue hall =>
    cases h
    have hval : ∀ f ∈ current ++ ((pySplit s ',').map pyStrip).filter (fun t => t ≠ ""),
        pyStartsWith f "+" = true ∨ pyStartsWith f "-" = true := by
      intro f hf
      have := List.all_eq_true.mp hall f hf
      simpa using this
    refine ⟨hval, ?_⟩
    intro st category confidence linenum verboseLevel
    unfold shouldPrintError
    by_cases hs : isErrorSuppressedByNolint st category linenum
    · simp [hs]
    · by_cases hc : confidence < verboseLevel
      · simp [hs, hc]
      · rw [filtersWalk_eq_lastMatch category _ false hval]
        simp [hs, hc]
  case isFalse hall => cases h

theorem setContains_cons (a : PyDriver) (l : List PyDriver) (d : PyDriver) :
    setContains (a :: l) d = ((pyHash a == pyHash d && pyEq a d) || setContains l d) := rfl

theorem setContains_eq_false_iff (acc : List PyDriver) (d : PyDriver) :
    setContains acc d = false ↔ ∀ s ∈ acc, NonAbsorb s d := by
  unfold setContains NonAbsorb
  rw [← Bool.not_eq_true, List.any_eq_true]
  constructor
  · intro h s hs hc
    exact h ⟨s, hs, by simp [hc.1, hc.2]⟩
  · rintro h ⟨s, hs, hc⟩
    simp only [Bool.and_eq_true, beq_iff_eq] at hc
    exact h s hs hc

theorem foldl_pyInsert_pairwise (l : List PyDriver) (acc : List PyDriver)
    (hacc : acc.Pairwise NonAbsorb) : (l.foldl pyInsert acc).Pairwise NonAbsorb := by
  induction l generalizing acc with
  | nil => simpa [List.foldl]
  | cons d rest ih =>
    rw [List.foldl_cons]
    apply ih
    unfold pyInsert
    by_cases hc : setContains acc d = true
    · simpa [hc]
    · rw [if_neg (by simp [hc])]
      rw [List.pairwise_append]
      refine ⟨hacc, by simp, ?_⟩
      intro a ha b hb
      rw [List.mem_singleton] at hb
      subst hb
      exact (setContains_eq_false_iff acc _).mp (by simpa using hc) a ha

theorem foldl_pyInsert_fixed (l acc : List PyDriver)
    (h : (acc ++ l).Pairwise NonAbsorb) : l.foldl pyInsert acc = acc ++ l := by
  induction l generalizing acc with
  | nil => simp
  | cons d rest ih =>
    rw [List.foldl_cons]
    have hcontains : setContains acc d = false := by
      rw [setContains_eq_false_iff]
      intro s hs
      rw [List.pairwise_append] at h
      exact h.2.2 s hs d (by simp)
    rw [pyInsert, if_neg (by simp [hcontains])]
    have : (acc ++ [d]) ++ rest = acc ++ d :: rest := by simp
    rw [ih (acc ++ [d]) (by rw [this]; exact h)]
    simp

theorem pySetOf_idem (l : List PyDriver) : pySetOf (pySetOf l) = pySetOf l := by
  have hp : (pySetOf l).Pairwise NonAbsorb :=
    foldl_pyInsert_pairwise l [] (by simp)
  unfold pySetOf
  have := foldl_pyInsert_fixed (pySetOf l) [] (by simpa using hp)
  simpa using this

theorem setContains_filter_eq (acc : List PyDriver) (d : PyDriver)
    (hposs : ∀ p ∈ acc, isPossibleDriver p = true → NonAbsorb p d) :
    setContains (acc.filter (fun x => !isPossibleDriver x)) d = setContains acc d := by
  induction acc with
  | nil => simp
  | cons a rest ih =>
    have hrest : ∀ p ∈ rest, isPossibleDriver p = true → NonAbsorb p d :=
      fun p hp => hposs p (List.mem_cons_of_mem a hp)
    have ihr := ih hrest
    by_cases ha : isPossibleDriver a = true
    · have hna : NonAbsorb a d := hposs a (List.mem_cons_self a rest) ha
      have hfalse : (pyHash a == pyHash d && pyEq a d) = false := by
        by_contra hc
        rw [Bool.not_eq_false, Bool.and_eq_true] at hc
        exact hna ⟨by simpa using hc.1, hc.2⟩
      rw [List.filter_cons_of_neg (by simp [ha]), ihr, setContains_cons, hfalse,
        Bool.false_or]
    · rw [List.filter_cons_of_pos (by simp [ha]), setContains_cons, setContains_cons, ihr]

theorem foldl_pyInsert_filter (l : List PyDriver) (acc : List PyDriver)
    (h : ∀ p, (p ∈ acc ∨ p ∈ l) → isPossibleDriver p = true →
      ∀ e ∈ l, isPossibleDriver e = false → NonAbsorb p e) :
    (l.foldl pyInsert acc).filter (fun x => !isPossibleDriver x) =
      (l.filter (fun x => !isPossibleDriver x)).foldl pyInsert
        (acc.filter (fun x => !isPossibleDriver x)) := by
  induction l generalizing acc with
  | nil => simp
  | cons d rest ih =>
    have hnext : ∀ p, (p ∈ pyInsert acc d ∨ p ∈ rest) → isPossibleDriver p = true →
        ∀ e ∈ rest, isPossibleDriver e = false → NonAbsorb p e := by
      intro p hp hposs e he hreal
      have hp2 : p ∈ acc ∨ p ∈ d :: rest := by
        rcases hp with hp | hp
        · unfold pyInsert at hp
          by_cases hc : setContains acc d = true
          · rw [if_pos hc] at hp; exact Or.inl hp
          · rw [if_neg hc] at hp
            rcases List.mem_append.mp hp with hp | hp
            · exact Or.inl hp
            · right; rw [List.mem_singleton] at hp; simp [hp]
        · right; simp [hp]
      exact h p hp2 hposs e (by simp [he]) hreal
    rw [List.foldl_cons, ih (pyInsert acc d) hnext]
    by_cases hd : isPossibleDriver d = true
    · have h1 : (pyInsert acc d).filter (fun x => !isPossibleDriver x) =
          acc.filter (fun x => !isPossibleDriver x) := by
        unfold pyInsert
        by_cases hc : setContains acc d = true
        · rw [if_pos hc]
        · rw [if_neg hc, List.filter_append]
          simp [hd]
      rw [h1, List.filter_cons_of_neg (by simp [hd])]
    · have hreal : isPossibleDriver d = false := by simpa using hd
      have hposs : ∀ p ∈ acc, isPossibleDriver p = true → NonAbsorb p d := by
        intro p hp hpp
        exact h p (Or.inl hp) hpp d (by simp) hreal
      have hcontains := setContains_filter_eq acc d hposs
      have hkey : (pyInsert acc d).filter (fun x => !isPossibleDriver x) =
          pyInsert (acc.filter (fun x => !isPossibleDriver x)) d := by
        unfold pyInsert
        rw [hcontains]
        by_cases hc : setContains acc d = true
        · rw [if_pos hc, if_pos hc]
        · rw [if_neg hc, if_neg hc, List.filter_append]
          simp [hreal]
      rw [hkey, List.filter_cons_of_pos (by simp [hreal]), List.foldl_cons]

/-- C2, amended: `HasMultipleDrivers` agrees with the spec's count of
distinct non-PossibleDriver entries whenever no PossibleDriver in the list
collides (equal hash, and equal under the possible driver's own equality)
with a non-PossibleDriver entry; in general a PossibleDriver inserted first
can absorb a genuine driver at the same line before the possibles are
dropped, making the code return false where the spec formula says true. -/
theorem C2_hasMultipleDrivers_eq_spec (drivers : List PyDriver)
    (h : ∀ p ∈ drivers, isPossibleDriver p = true →
      ∀ d ∈ drivers, isPossibleDriver d = false → NonAbsorb p d) :
    hasMultipleDrivers drivers = specHasMultipleDrivers drivers := by
  have hfilter := foldl_pyInsert_filter drivers []
    (by intro p hp hposs e he hreal
        rcases hp with hp | hp
        · cases hp
        · exact h p hp hposs e he hreal)
  simp only [List.filter_nil] at hfilter
  have hidem := pySetOf_idem (drivers.filter (fun x => !isPossibleDriver x))
  unfold pySetOf at hidem
  unfold hasMultipleDrivers specHasMultipleDrivers getUniqueDrivers pySetOf
  rw [hfilter, hidem]

theorem C2_hasMultipleDrivers_eq_spec_witness :
    hasMultipleDrivers
      [⟨.plain, .emptyStr, 4⟩, ⟨.process, .num 10, 12⟩, ⟨.possible, .emptyStr, 30⟩] =
    specHasMultipleDrivers
      [⟨.plain, .emptyStr, 4⟩, ⟨.process, .num 10, 12⟩, ⟨.possible, .emptyStr, 30⟩] :=
  C2_hasMultipleDrivers_eq_spec _ (by decide)

theorem pyEq_refl (x : PyDriver) : pyEq x x = true := by
  unfold pyEq
  cases x.kind <;> simp

theorem mem_foldl_pyInsert_of_mem_acc (l : List PyDriver) (acc : List PyDriver)
    (y : PyDriver) (hy : y ∈ acc) : y ∈ l.foldl pyInsert acc := by
  induction l generalizing acc with
  | nil => simpa
  | cons d rest ih =>
    rw [List.foldl_cons]
    apply ih
    unfold pyInsert
    by_cases hc : setContains acc d = true
    · rwa [if_pos hc]
    · rw [if_neg hc]; exact List.mem_append_left _ hy

theorem mem_of_mem_foldl_pyInsert (l : List PyDriver) (acc : List PyDriver)
    (y : PyDriver) (hy : y ∈ l.foldl pyInsert acc) : y ∈ acc ∨ y ∈ l := by
  induction l generalizing acc with
  | nil => left; simpa using hy
  | cons d rest ih =>
    rw [List.foldl_cons] at hy
    rcases ih (pyInsert acc d) hy with h | h
    · unfold pyInsert at h
      by_cases hc : setContains acc d = true
      · rw [if_pos hc] at h; exact Or.inl h
      · rw [if_neg hc] at h
        rcases List.mem_append.mp h with h | h
        · exact Or.inl h
        · right; rw [List.mem_singleton] at h; simp [h]
    · right; simp [h]

theorem exists_repr_foldl (l : List PyDriver) (acc : List PyDriver) (x : PyDriver)
    (hx : x ∈ l) :
    ∃ y ∈ l.foldl pyInsert acc, pyHash y = pyHash x ∧ pyEq y x = true := by
  induction l generalizing acc with
  | nil => cases hx
  | cons d rest ih =>
    rw [List.foldl_cons]
    rcases List.mem_cons.mp hx with hx | hx
    · subst hx
      by_cases hc : setContains acc x = true
      · unfold setContains at hc
        rw [List.any_eq_true] at hc
        obtain ⟨s, hs, hsx⟩ := hc
        simp only [Bool.and_eq_true, beq_iff_eq] at hsx
        refine ⟨s, ?_, hsx⟩
        apply mem_foldl_pyInsert_of_mem_acc
        unfold pyInsert
        by_cases hcx : setContains acc x = true
        · rwa [if_pos hcx]
        · rw [if_neg hcx]; exact List.mem_append_left _ hs
      · refine ⟨x, ?_, rfl, pyEq_refl x⟩
        apply mem_foldl_pyInsert_of_mem_acc
        unfold pyInsert
        rw [if_neg hc]
        exact List.mem_append_right _ (by simp)
    · exact ih (pyInsert acc d) hx

theorem one_lt_length_of_two {x y : PyDriver} {l : List PyDriver}
    (hx : x ∈ l) (hy : y ∈ l) (hxy : x ≠ y) : 1 < l.length := by
  match l with
  | [] => cases hx
  | [a] =>
    rw [List.mem_singleton] at hx hy
    exact absurd (hx.trans hy.symm) hxy
  | a :: b :: t => simp [List.length_cons]

theorem foldl_pyInsert_const (l acc : List PyDriver)
    (h : ∀ d ∈ l, setContains acc d = true) : l.foldl pyInsert acc = acc := by
  induction l with
  | nil => rfl
  | cons d rest ih =>
    rw [List.foldl_cons, pyInsert, if_pos (h d (by simp))]
    exact ih (fun e he => h e (by simp [he]))

/-- Over a list of ProcessDriver records that all share one scope,
`HasMultipleDrivers` is false: they all collapse to one set element. -/
theorem not_hasMultiple_of_one_scope (l : List PyDriver) (s : PyScope)
    (h : ∀ d ∈ l, d.kind = .process ∧ d.scope = s) : hasMultipleDrivers l = false := by
  cases l with
  | nil => rfl
  | cons a rest =>
    obtain ⟨hak, has⟩ := h a (by simp)
    have h1 : pySetOf (a :: rest) = [a] := by
      unfold pySetOf
      rw [List.foldl_cons, pyInsert,
        if_neg (by unfold setContains; simp)]
      rw [show ([] : List PyDriver) ++ [a] = [a] from rfl]
      apply foldl_pyInsert_const
      intro d hd
      obtain ⟨hdk, hds⟩ := h d (by simp [hd])
      unfold setContains
      rw [List.any_eq_true]
      refine ⟨a, by simp, ?_⟩
      have hhash : pyHash a = pyHash d := by
        unfold pyHash
        rw [hak, hdk, has, hds]
      have heq : pyEq a d = true := by
        unfold pyEq
        rw [hak, has, hds]
        simp
      simp [hhash, heq]
    unfold hasMultipleDrivers getUniqueDrivers
    rw [h1]
    rw [List.filter_cons_of_pos (by simp [isPossibleDriver, hak]), List.filter_nil]
    rfl

/-- Over a list of ProcessDriver records containing two different scopes,
`HasMultipleDrivers` is true. -/
theorem hasMultiple_of_two_scopes (l : List PyDriver) (a b : PyDriver)
    (hall : ∀ d ∈ l, d.kind = .process) (ha : a ∈ l) (hb : b ∈ l)
    (hne : a.scope ≠ b.scope) : hasMultipleDrivers l = true := by
  have scope_of_repr : ∀ x y : PyDriver, y.kind = .process → pyEq y x = true →
      y.scope = x.scope := by
    intro x y hk he
    unfold pyEq at he
    rw [hk] at he
    simpa using he
  obtain ⟨ya, hya, -, hyae⟩ := exists_repr_foldl l [] a ha
  obtain ⟨yb, hyb, -, hybe⟩ := exists_repr_foldl l [] b hb
  have hyal : ya ∈ l := by
    rcases mem_of_mem_foldl_pyInsert l [] ya hya with h | h
    · cases h
    · exact h
  have hybl : yb ∈ l := by
    rcases mem_of_mem_foldl_pyInsert l [] yb hyb with h | h
    · cases h
    · exact h
  have hyas : ya.scope = a.scope := scope_of_repr a ya (hall ya hyal) hyae
  have hybs : yb.scope = b.scope := scope_of_repr b yb (hall yb hybl) hybe
  have hmem_u : ∀ y : PyDriver, y ∈ pySetOf l → y ∈ l := by
    intro y hy
    rcases mem_of_mem_foldl_pyInsert l [] y hy with h | h
    · cases h
    · exact h
  have hfilter_mem : ∀ y : PyDriver, y ∈ pySetOf l →
      y ∈ (pySetOf l).filter (fun d => !isPossibleDriver d) := by
    intro y hy
    rw [List.mem_filter]
    refine ⟨hy, ?_⟩
    have := hall y (hmem_u y hy)
    simp [isPossibleDriver, this]
  obtain ⟨za, hza, -, hzae⟩ := exists_repr_foldl _ [] ya (hfilter_mem ya hya)
  obtain ⟨zb, hzb, -, hzbe⟩ := exists_repr_foldl _ [] yb (hfilter_mem yb hyb)
  have hzal : za ∈ l := by
    rcases mem_of_mem_foldl_pyInsert _ [] za hza with h | h
    · cases h
    · exact hmem_u za (List.mem_of_mem_filter h)
  have hzbl : zb ∈ l := by
    rcases mem_of_mem_foldl_pyInsert _ [] zb hzb with h | h
    · cases h
    · exact hmem_u zb (List.mem_of_mem_filter h)
  have hzas : za.scope = a.scope := by
    rw [← hyas]
    exact scope_of_repr ya za (hall za hzal) hzae
  have hzbs : zb.scope = b.scope := by
    rw [← hybs]
    exact scope_of_repr yb zb (hall zb hzbl) hzbe
  have hzne : za ≠ zb := by
    intro hc
    apply hne
    rw [← hzas, ← hzbs, hc]
  have hlen := one_lt_length_of_two hza hzb hzne
  unfold hasMultipleDrivers getUniqueDrivers
  simpa using hlen

theorem runWrites_silent (w : String) (scope : Nat) (ws : List Nat) (D : List PyDriver)
    (ds : List Diag) (hall : ∀ d ∈ D, d.kind = .process ∧ d.scope = .num (scope : Int)) :
    ws.foldl (checkWriteStep w scope) (D, ds) = (D ++ ws.map (processDriver scope), ds) := by
  induction ws generalizing D with
  | nil => simp
  | cons l ls ih =>
    rw [List.foldl_cons]
    have hstep : checkWriteStep w scope (D, ds) l = (D ++ [processDriver scope l], ds) := by
      unfold checkWriteStep
      have hm := not_hasMultiple_of_one_scope (D ++ [processDriver scope l])
        (.num (scope : Int)) (by
          intro d hd
          rcases List.mem_append.mp hd with h | h
          · exact hall d h
          · rw [List.mem_singleton] at h; subst h; exact ⟨rfl, rfl⟩)
      simp only [hm, Bool.false_eq_true, if_false]
    rw [hstep, ih (D ++ [processDriver scope l]) (by
      intro d hd
      rcases List.mem_append.mp hd with h | h
      · exact hall d h
      · rw [List.mem_singleton] at h; subst h; exact ⟨rfl, rfl⟩)]
    simp

theorem runWrites_emitting (w : String) (scope : Nat) (ws : List Nat) (D : List PyDriver)
    (ds : List Diag) (hall : ∀ d ∈ D, d.kind = .process)
    (hex : ∃ y ∈ D, y.scope ≠ PyScope.num (scope : Int)) :
    ws.foldl (checkWriteStep w scope) (D, ds) =
      (D ++ ws.map (processDriver scope),
       ds ++ expectedProcDiags w (D.map (fun d => d.line.toNat)) ws) := by
  induction ws generalizing D ds with
  | nil => simp [expectedProcDiags]
  | cons l ls ih =>
    obtain ⟨y, hy, hys⟩ := hex
    have hstep : checkWriteStep w scope (D, ds) l =
        (D ++ [processDriver scope l],
         ds ++ [⟨"runtime/multiple_drivers", 5, l, 0, 0,
           multipleDriversMsg w (D.map (fun d => d.line.toNat)),
           D.map (fun d => d.line.toNat)⟩]) := by
      unfold checkWriteStep
      have hm := hasMultiple_of_two_scopes (D ++ [processDriver scope l]) y
        (processDriver scope l)
        (by intro d hd
            rcases List.mem_append.mp hd with h | h
            · exact hall d h
            · rw [List.mem_singleton] at h; subst h; rfl)
        (List.mem_append_left _ hy) (List.mem_append_right _ (by simp)) hys
      simp only [hm, if_true, List.dropLast_concat]
    rw [List.foldl_cons, hstep]
    rw [ih (D ++ [processDriver scope l]) _
      (by intro d hd
          rcases List.mem_append.mp hd with h | h
          · exact hall d h
          · rw [List.mem_singleton] at h; subst h; rfl)
      ⟨y, List.mem_append_left _ hy, hys⟩]
    rw [expectedProcDiags]
    simp [processDriver]

theorem map_line_toNat_processDriver (s : Nat) (ws : List Nat) :
    ws.map ((fun (d : PyDriver) => d.line.toNat) ∘ processDriver s) = ws := by
  rw [show ((fun (d : PyDriver) => d.line.toNat) ∘ processDriver s) = (fun l => l) by
    funext l; simp [processDriver]]
  exact List.map_id ws

theorem runRest_eq_expected (w : String) (s0 : Nat) (rest : List (Nat × List Nat))
    (D : List PyDriver) (ds : List Diag)
    (hall : ∀ d ∈ D, d.kind = .process)
    (hex : ∃ y ∈ D, y.scope = PyScope.num (s0 : Int))
    (hdist : ∀ p ∈ rest, p.1 ≠ s0) :
    rest.foldl (fun st p => p.2.foldl (checkWriteStep w p.1) st) (D, ds) =
      (D ++ rest.flatMap (fun p => p.2.map (processDriver p.1)),
       ds ++ expectedLaterDiags w (D.map (fun d => d.line.toNat)) rest) := by
  induction rest generalizing D ds with
  | nil => simp [expectedLaterDiags]
  | cons p rest ih =>
    rw [List.foldl_cons]
    have hpne : p.1 ≠ s0 := hdist p (by simp)
    obtain ⟨y, hy, hys⟩ := hex
    have hex2 : ∃ z ∈ D, z.scope ≠ PyScope.num (p.1 : Int) := by
      refine ⟨y, hy, ?_⟩
      rw [hys]
      intro hc
      rw [PyScope.num.injEq] at hc
      exact hpne (by exact_mod_cast hc.symm)
    rw [runWrites_emitting w p.1 p.2 D ds hall hex2]
    rw [ih (D ++ p.2.map (processDriver p.1)) _
      (by intro d hd
          rcases List.mem_append.mp hd with h | h
          · exact hall d h
          · rcases List.mem_map.mp h with ⟨l, -, hl⟩
            subst hl; rfl)
      ⟨y, List.mem_append_left _ hy, hys⟩
      (fun q hq => hdist q (by simp [hq]))]
    rw [expectedLaterDiags]
    simp [List.map_append, List.append_assoc, List.map_map,
      map_line_toNat_processDriver]

theorem expectedProcDiags_map_line (w : String) (prior ws : List Nat) :
    (expectedProcDiags w prior ws).map (fun d => d.line) = ws := by
  induction ws generalizing prior with
  | nil => simp [expectedProcDiags]
  | cons l ls ih => simp [expectedProcDiags, ih]

theorem expectedLaterDiags_map_line (w : String) (prior : List Nat)
    (rest : List (Nat × List Nat)) :
    (expectedLaterDiags w prior rest).map (fun d => d.line) =
      rest.flatMap (fun p => p.2) := by
  induction rest generalizing prior with
  | nil => simp [expectedLaterDiags]
  | cons p rest ih =>
    simp [expectedLaterDiags, expectedProcDiags_map_line, ih]

theorem expectedProcDiags_props (w : String) (prior ws : List Nat)
    (d : Diag) (hd : d ∈ expectedProcDiags w prior ws) :
    d.cat = "runtime/multiple_drivers" ∧ d.confidence = 5 ∧
      d.msg = multipleDriversMsg w d.msgLines ∧ d.msgLines <+: (prior ++ ws) := by
  induction ws generalizing prior with
  | nil => cases hd
  | cons l ls ih =>
    rw [expectedProcDiags] at hd
    rcases List.mem_cons.mp hd with hd | hd
    · subst hd
      exact ⟨rfl, rfl, rfl, ⟨l :: ls, rfl⟩⟩
    · obtain ⟨h1, h2, h3, h4⟩ := ih (prior ++ [l]) hd
      refine ⟨h1, h2, h3, ?_⟩
      have heq : (prior ++ [l]) ++ ls = prior ++ l :: ls := by simp
      rwa [heq] at h4

theorem expectedLaterDiags_props (w : String) (prior : List Nat)
    (rest : List (Nat × List Nat)) (d : Diag) (hd : d ∈ expectedLaterDiags w prior rest) :
    d.cat = "runtime/multiple_drivers" ∧ d.confidence = 5 ∧
      d.msg = multipleDriversMsg w d.msgLines ∧
      d.msgLines <+: (prior ++ rest.flatMap (fun p => p.2)) := by
  induction rest generalizing prior with
  | nil => cases hd
  | cons p rest ih =>
    rw [expectedLaterDiags] at hd
    rcases List.mem_append.mp hd with hd | hd
    · obtain ⟨h1, h2, h3, h4⟩ := expectedProcDiags_props w prior p.2 d hd
      refine ⟨h1, h2, h3, ?_⟩
      rcases h4 with ⟨t, ht⟩
      exact ⟨t ++ rest.flatMap (fun p => p.2),
        by rw [List.flatMap_cons, ← List.append_assoc, ← List.append_assoc, ht]⟩
    · obtain ⟨h1, h2, h3, h4⟩ := ih (prior ++ p.2) hd
      refine ⟨h1, h2, h3, ?_⟩
      rw [List.flatMap_cons]
      simpa using h4

/-- C1: when several processes (distinct by start line) write the same
signal, and the head process writes it at least once, the multiple-driver
pass emits exactly one `runtime/multiple_drivers` diagnostic of confidence 5
per write in each process after the first, anchored at the write's line, and
each diagnostic's message lists the line numbers of all prior drivers — in
ascending order when the write lines ascend through the file. -/
theorem C1_multiple_driver_diags (w : String) (s0 : Nat) (ws0 : List Nat)
    (rest : List (Nat × List Nat))
    (h0 : ws0 ≠ [])
    (hdist : (s0 :: rest.map Prod.fst).Pairwise (· ≠ ·))
    (hchain : (ws0 ++ rest.flatMap (fun p => p.2)).Chain' (· < ·)) :
    (runProcessWrites w ((s0, ws0) :: rest)).2 = expectedLaterDiags w ws0 rest ∧
    ((runProcessWrites w ((s0, ws0) :: rest)).2).map (fun d => d.line) =
      rest.flatMap (fun p => p.2) ∧
    (∀ d ∈ (runProcessWrites w ((s0, ws0) :: rest)).2,
      d.cat = "runtime/multiple_drivers" ∧ d.confidence = 5 ∧
      d.msg = multipleDriversMsg w d.msgLines ∧ d.msgLines.Chain' (· < ·)) := by
  have hmain : (runProcessWrites w ((s0, ws0) :: rest)).2 = expectedLaterDiags w ws0 rest := by
    unfold runProcessWrites
    rw [List.foldl_cons]
    rw [show List.foldl (checkWriteStep w (s0, ws0).1) ([], []) (s0, ws0).2 =
        List.foldl (checkWriteStep w s0) ([], []) ws0 from rfl]
    rw [runWrites_silent w s0 ws0 [] [] (by intro d hd; cases hd)]
    obtain ⟨l0, hl0⟩ := List.exists_mem_of_ne_nil ws0 h0
    have hdist2 : ∀ p ∈ rest, p.1 ≠ s0 := by
      intro p hp
      have := (List.pairwise_cons.mp hdist).1 p.1 (List.mem_map_of_mem Prod.fst hp)
      exact fun hc => this hc.symm
    rw [show ([] : List PyDriver) ++ ws0.map (processDriver s0) =
      ws0.map (processDriver s0) from rfl]
    rw [runRest_eq_expected w s0 rest (ws0.map (processDriver s0)) []
      (by intro d hd
          rcases List.mem_map.mp hd with ⟨l, -, hl⟩
          subst hl; rfl)
      ⟨processDriver s0 l0, List.mem_map_of_mem _ hl0, rfl⟩ hdist2]
    simp [List.map_map, map_line_toNat_processDriver]
  refine ⟨hmain, ?_, ?_⟩
  · rw [hmain, expectedLaterDiags_map_line]
  · intro d hd
    rw [hmain] at hd
    obtain ⟨h1, h2, h3, h4⟩ := expectedLaterDiags_props w ws0 rest d hd
    exact ⟨h1, h2, h3, hchain.sublist h4.sublist⟩

theorem C1_multiple_driver_diags_witness :
    (runProcessWrites "sig" [(10, [11]), (20, [21, 22])]).2 =
      expectedLaterDiags "sig" [11] [(20, [21, 22])] ∧
    ((runProcessWrites "sig" [(10, [11]), (20, [21, 22])]).2).map (fun d => d.line) =
      [(20, [21, 22])].flatMap (fun p => p.2) ∧
    (∀ d ∈ (runProcessWrites "sig" [(10, [11]), (20, [21, 22])]).2,
      d.cat = "runtime/multiple_drivers" ∧ d.confidence = 5 ∧
      d.msg = multipleDriversMsg "sig" d.msgLines ∧ d.msgLines.Chain' (· < ·)) :=
  C1_multiple_driver_diags "sig" 10 [11] [(20, [21, 22])] (by decide) (by decide) (by simp)

/-- C2, counterexample to the claim as stated: with drivers
`[PossibleDriver("",5), Driver(_,5), Driver(_,7)]` the code deduplicates
first (the possible driver at line 5 absorbs the genuine driver at line 5)
and then drops the possibles, leaving one known driver, so it returns false;
the spec's count of distinct non-possible drivers is 2, demanding true. -/
theorem C2_counterexample :
    hasMultipleDrivers
      [⟨.possible, .emptyStr, 5⟩, ⟨.plain, .emptyStr, 5⟩, ⟨.plain, .emptyStr, 7⟩] = false ∧
    specHasMultipleDrivers
      [⟨.possible, .emptyStr, 5⟩, ⟨.plain, .emptyStr, 5⟩, ⟨.plain, .emptyStr, 7⟩] = true := by
  decide

theorem C10_validated_filters_no_assert_witness :
    (∀ f ∈ ["-build/include_alpha", "+whitespace", "-runtime/loops"],
        pyStartsWith f "+" = true ∨ pyStartsWith f "-" = true) ∧
    (∀ st category confidence linenum verboseLevel,
      (shouldPrintError st category confidence linenum verboseLevel
        ["-build/include_alpha", "+whitespace", "-runtime/loops"]).isSome = true) :=
  C10_validated_filters_no_assert _DEFAULT_FILTERS "+whitespace,-runtime/loops"
    ["-build/include_alpha", "+whitespace", "-runtime/loops"] (by rfl)

theorem findSub_none_iff (pat : List Char) (hpat : pat ≠ []) (l : List Char) :
    findSub pat l = none ↔ ∀ n, ¬ pat <+: l.drop n := by
  induction l with
  | nil =>
    constructor
    · intro _ n
      rw [List.drop_nil, List.prefix_nil]
      exact hpat
    · intro _; rfl
  | cons c cs ih =>
    rw [findSub]
    by_cases hp : List.isPrefixOf pat (c :: cs) = true
    · rw [if_pos hp]
      constructor
      · intro h; cases h
      · intro h
        exact absurd (List.isPrefixOf_iff_prefix.mp hp) (by simpa using h 0)
    · rw [if_neg hp, Option.map_eq_none', ih]
      constructor
      · intro h n
        cases n with
        | zero =>
          rw [List.drop_zero]
          intro hc
          exact hp (List.isPrefixOf_iff_prefix.mpr hc)
        | succ n =>
          rw [List.drop_succ_cons]
          exact h n
      · intro h n
        have := h (n + 1)
        rwa [List.drop_succ_cons] at this

theorem findSub_some_min (pat l : List Char) (p : Nat) (h : findSub pat l = some p) :
    pat <+: l.drop p ∧ ∀ i < p, ¬ pat <+: l.drop i := by
  induction l generalizing p with
  | nil => cases h
  | cons c cs ih =>
    rw [findSub] at h
    by_cases hp : List.isPrefixOf pat (c :: cs) = true
    · rw [if_pos hp] at h
      cases h
      exact ⟨by simpa using List.isPrefixOf_iff_prefix.mp hp, by omega⟩
    · rw [if_neg hp] at h
      obtain ⟨q, hq, rfl⟩ := Option.map_eq_some'.mp h
      obtain ⟨h1, h2⟩ := ih q hq
      refine ⟨by rwa [List.drop_succ_cons], ?_⟩
      intro i hi
      cases i with
      | zero =>
        rw [List.drop_zero]
        intro hc
        exact hp (List.isPrefixOf_iff_prefix.mpr hc)
      | succ i =>
        rw [List.drop_succ_cons]
        exact h2 i (by omega)

theorem isPrefix_drop_mono {m l : List Char} (h : m <+: l) (n : Nat) :
    m.drop n <+: l.drop n := by
  obtain ⟨t, rfl⟩ := h
  rw [List.drop_append_eq_append_drop]
  exact ⟨t.drop (n - m.length), rfl⟩

theorem findSub_none_mono (pat : List Char) (hpat : pat ≠ []) {m l : List Char}
    (hml : m <+: l) (h : findSub pat l = none) : findSub pat m = none := by
  rw [findSub_none_iff pat hpat] at h ⊢
  intro n hc
  exact h n (hc.trans (isPrefix_drop_mono hml n))

theorem pyRstrip_front (l : List Char) : pyRstrip l <+: l := by
  refine ⟨(l.reverse.takeWhile isPySpace).reverse, ?_⟩
  calc pyRstrip l ++ (l.reverse.takeWhile isPySpace).reverse
      = ((l.reverse.takeWhile isPySpace) ++ (l.reverse.dropWhile isPySpace)).reverse := by
        rw [List.reverse_append]; rfl
    _ = l.reverse.reverse := by rw [List.takeWhile_append_dropWhile]
    _ = l := l.reverse_reverse

theorem truncAtComment_of_none {x : List Char} (h : findSub ['-', '-'] x = none) :
    truncAtComment x = x := by
  unfold truncAtComment
  rw [h]

theorem truncAtComment_front (cs : List Char) : truncAtComment cs <+: cs := by
  unfold truncAtComment
  cases hfd : findSub ['-', '-'] cs with
  | none => exact List.prefix_rfl
  | some p =>
    show (if isCppString (cs.take p) = true then cs else pyRstrip (cs.take p)) <+: cs
    by_cases hstr : isCppString (cs.take p) = true
    · rw [if_pos hstr]
    · rw [if_neg hstr]
      exact (pyRstrip_front _).trans (List.take_prefix p cs)

theorem truncAtComment_stable (cs : List Char) :
    findSub ['-', '-'] (truncAtComment cs) = none ∨ truncAtComment cs = cs := by
  unfold truncAtComment
  cases hfd : findSub ['-', '-'] cs with
  | none => right; rfl
  | some p =>
    show findSub ['-', '-'] (if isCppString (cs.take p) = true then cs
        else pyRstrip (cs.take p)) = none ∨
      (if isCppString (cs.take p) = true then cs else pyRstrip (cs.take p)) = cs
    by_cases hstr : isCppString (cs.take p) = true
    · rw [if_pos hstr]; right; rfl
    · rw [if_neg hstr]
      left
      obtain ⟨-, hmin⟩ := findSub_some_min _ _ _ hfd
      rw [findSub_none_iff _ (by simp)]
      intro n hc
      have hc2 : ['-', '-'] <+: (cs.take p).drop n :=
        hc.trans (isPrefix_drop_mono (pyRstrip_front _) n)
      have hc3 : ['-', '-'] <+: cs.drop n :=
        hc2.trans (isPrefix_drop_mono (List.take_prefix p cs) n)
      have hlen : 2 ≤ ((cs.take p).drop n).length := by
        have := hc2.length_le
        simpa using this
      have hnp : n < p := by
        rw [List.length_drop, List.length_take] at hlen
        omega
      exact hmin n hnp hc3

theorem matchComment_eq_none {x : List Char} (h : ¬ ['/', '*'] <+: x) :
    matchComment x = none := by
  unfold matchComment
  rw [if_neg (fun hc => h (List.isPrefixOf_iff_prefix.mp hc))]

theorem tryMatchAt_none {l : List Char} (h : findSub ['/', '*'] l = none) :
    tryMatchAt l = none := by
  have hchar := (findSub_none_iff _ (by simp) l).mp h
  unfold tryMatchAt
  rw [matchComment_eq_none (hchar (wsCount l))]

theorem subCAux_id (fuel : Nat) (l : List Char) (h : findSub ['/', '*'] l = none) :
    subCAux fuel l = l := by
  induction fuel generalizing l with
  | zero => rfl
  | succ fuel ih =>
    cases l with
    | nil => rfl
    | cons c rest =>
      rw [subCAux, tryMatchAt_none h]
      show c :: subCAux fuel rest = c :: rest
      congr 1
      apply ih
      rw [findSub_none_iff _ (by simp)] at h ⊢
      intro n
      have := h (n + 1)
      rwa [List.drop_succ_cons] at this

theorem cleanseComments_no_ccomment (line : String)
    (h : findSub ['/', '*'] line.toList = none) :
    cleanseComments line = String.mk (truncAtComment line.toList) := by
  unfold cleanseComments cleanseLineCComments
  rw [subCAux_id _ _ (findSub_none_mono _ (by simp) (truncAtComment_front _) h)]

theorem cleanseComments_idem (line : String)
    (h : findSub ['/', '*'] line.toList = none) :
    cleanseComments (cleanseComments line) = cleanseComments line := by
  have hm_pref : truncAtComment line.toList <+: line.toList := truncAtComment_front _
  have hm_nosub : findSub ['/', '*'] (truncAtComment line.toList) = none :=
    findSub_none_mono _ (by simp) hm_pref h
  rw [cleanseComments_no_ccomment line h]
  have h2 : cleanseComments (String.mk (truncAtComment line.toList)) =
      String.mk (truncAtComment (truncAtComment line.toList)) :=
    cleanseComments_no_ccomment _ hm_nosub
  rw [h2]
  congr 1
  rcases truncAtComment_stable line.toList with hnone | heq
  · exact truncAtComment_of_none hnone
  · rw [heq]
    exact heq

/-- C9, amended: re-running `CleansedLines` on the views it produced gives
the same views for every input whose lines contain no `/*` token; in
general re-cleansing can differ, because deleting a `/*...*/` block comment
can splice the remaining text into a new `/*...*/` comment that only the
second pass removes. -/
theorem C9_cleansing_idem (rawLines : List String)
    (h : ∀ l ∈ rawLines, hasSub ['/', '*'] l.toList = false) :
    cleansedLines ((cleansedLines rawLines).lines) = cleansedLines rawLines := by
  have hidem : ∀ l ∈ rawLines, cleanseComments (cleanseComments l) = cleanseComments l := by
    intro l hl
    apply cleanseComments_idem
    have hx := h l hl
    unfold hasSub at hx
    cases hf : findSub ['/', '*'] l.toList with
    | none => rfl
    | some p => rw [hf] at hx; cases hx
  have hkey : (rawLines.map cleanseComments).map cleanseComments =
      rawLines.map cleanseComments := by
    rw [List.map_map]
    apply List.map_congr_left
    intro a ha
    simp only [Function.comp_apply]
    exact hidem a ha
  simp only [cleansedLines]
  rw [hkey]

theorem FromString_line (n : Nat) (l s : String) : (LineRef.FromString n l s).line = n := by
  unfold LineRef.FromString
  cases findWordIdx s.toList l.toList <;> rfl

theorem declDiags_fires (lineNum : Nat) (line : String) (checkIntRange : Bool)
    (dt : Option String) (n : Nat) (names stype : String)
    (hdt : dt ≠ some "constant") (hc : checkIntRange = true)
    (hs : stype = "integer" ∨ stype = "natural" ∨ stype = "positive") :
    ∃ d ∈ declDiags lineNum line checkIntRange dt n names stype,
      d.cat = "runtime/integers" ∧ d.confidence = 5 ∧ d.line = lineNum := by
  have hcond : (dt ≠ some "constant" && checkIntRange) = true := by simp [hdt, hc]
  unfold declDiags
  rw [if_pos hcond]
  rcases hs with hs | hs | hs <;> subst hs
  · exact ⟨mkDiag "runtime/integers" 5 (LineRef.FromString lineNum line "integer")
      "Integer types must have a range specified.", by simp,
      rfl, rfl, FromString_line lineNum line "integer"⟩
  · exact ⟨mkDiag "runtime/integers" 5 (LineRef.FromString lineNum line "natural")
      "Natural types must have a range specified.", by simp,
      rfl, rfl, FromString_line lineNum line "natural"⟩
  · exact ⟨mkDiag "runtime/integers" 5 (LineRef.FromString lineNum line "positive")
      "Positive types must have a range specified.", by simp,
      rfl, rfl, FromString_line lineNum line "positive"⟩

theorem declDiags_silent (lineNum : Nat) (line : String) (checkIntRange : Bool)
    (dt : Option String) (n : Nat) (names stype : String)
    (h : dt = some "constant" ∨ checkIntRange = false ∨
      (stype ≠ "integer" ∧ stype ≠ "natural" ∧ stype ≠ "positive")) :
    ∀ d ∈ declDiags lineNum line checkIntRange dt n names stype,
      d.cat ≠ "runtime/integers" := by
  intro d hd
  unfold declDiags at hd
  rcases List.mem_append.mp hd with h1 | h2
  · by_cases hn : n > 1
    · rw [if_pos hn] at h1
      simp only [List.mem_singleton] at h1
      subst h1
      simp [mkDiag]
    · rw [if_neg hn] at h1
      cases h1
  · rcases h with hdt | hc | hs
    · rw [if_neg (by simp [hdt])] at h2
      cases h2
    · rw [if_neg (by simp [hc])] at h2
      cases h2
    · obtain ⟨hs1, hs2, hs3⟩ := hs
      by_cases hcond : (dt ≠ some "constant" && checkIntRange) = true
      · rw [if_pos hcond] at h2
        simp [hs1, hs2, hs3] at h2
      · rw [if_neg hcond] at h2
        cases h2

theorem matchDeclaration_shape (lineNum : Nat) (line : String) (checkIntRange : Bool)
    (reqDeclType : Option String) (r : DeclMatch) (ds : List Diag)
    (h : matchDeclaration lineNum line checkIntRange reqDeclType = (some r, ds)) :
    ∃ s names, r.stype = some s ∧
      ds = declDiags lineNum line checkIntRange r.declType r.nameList.length names s := by
  simp only [matchDeclaration] at h
  split at h
  · simp at h
  · split at h
    · simp at h
    · rw [Prod.mk.injEq] at h
      obtain ⟨h1, h2⟩ := h
      injection h1 with h1
      subst h1
      exact ⟨_, _, rfl, h2.symm⟩

/-- C8: for every line on which `MatchDeclaration` succeeds: if the
declaration kind is not `constant`, range-checking is requested, and the
parsed type expression is exactly `integer`, `natural` or `positive` (with
a range present, the type expression is the range text instead), the
emitted diagnostics contain a `runtime/integers` one with confidence 5 on
that line; if the kind is `constant` or the type expression is none of the
three, no `runtime/integers` diagnostic is emitted. -/
theorem C8_integer_range_diags (lineNum : Nat) (line : String) (checkIntRange : Bool)
    (reqDeclType : Option String) (r : DeclMatch) (ds : List Diag)
    (h : matchDeclaration lineNum line checkIntRange reqDeclType = (some r, ds)) :
    (r.declType ≠ some "constant" → checkIntRange = true →
      (r.stype = some "integer" ∨ r.stype = some "natural" ∨ r.stype = some "positive") →
      ∃ d ∈ ds, d.cat = "runtime/integers" ∧ d.confidence = 5 ∧ d.line = lineNum) ∧
    ((r.declType = some "constant" ∨
        (r.stype ≠ some "integer" ∧ r.stype ≠ some "natural" ∧ r.stype ≠ some "positive")) →
      ∀ d ∈ ds, d.cat ≠ "runtime/integers") := by
  obtain ⟨s, names, hst, hds⟩ := matchDeclaration_shape _ _ _ _ _ _ h
  subst hds
  constructor
  · intro hdt hc hs
    apply declDiags_fires _ _ _ _ _ _ _ hdt hc
    rw [hst] at hs
    rcases hs with hs | hs | hs
    · exact Or.inl (Option.some.inj hs)
    · exact Or.inr (Or.inl (Option.some.inj hs))
    · exact Or.inr (Or.inr (Option.some.inj hs))
  · intro hcase
    apply declDiags_silent
    rcases hcase with hdt | hs
    · exact Or.inl hdt
    · refine Or.inr (Or.inr ⟨?_, ?_, ?_⟩)
      · intro he
        exact hs.1 (by rw [hst, he])
      · intro he
        exact hs.2.1 (by rw [hst, he])
      · intro he
        exact hs.2.2 (by rw [hst, he])

theorem C8_integer_range_diags_witness :
    matchDeclaration 7 "signal x : integer;" true none =
      (some ⟨some "signal", ["x"], none, some "integer"⟩,
       [⟨"runtime/integers", 5, 7, 11, 18, "Integer types must have a range specified.", []⟩]) ∧
    (∃ d ∈ [(⟨"runtime/integers", 5, 7, 11, 18,
        "Integer types must have a range specified.", ([] : List Nat)⟩ : Diag)],
      d.cat = "runtime/integers" ∧ d.confidence = 5 ∧ d.line = 7) := by
  exact ⟨by decide,
    (C8_integer_range_diags 7 "signal x : integer;" true none
        ⟨some "signal", ["x"], none, some "integer"⟩
        [⟨"runtime/integers", 5, 7, 11, 18, "Integer types must have a range specified.", []⟩]
        (by decide)).1 (by decide) rfl (Or.inl rfl)⟩

theorem isSupp_iff (st : SuppState) (cat : String) (k : Nat) :
    isErrorSuppressedByNolint st cat k = true ↔ ((cat, k) ∈ st.suppCat ∨ k ∈ st.suppAll) := by
  unfold isErrorSuppressedByNolint
  simp

theorem parse_preserves (rawLine : String) (n : Nat) (st : SuppState) (cat : String) (k : Nat)
    (h : isErrorSuppressedByNolint st cat k = true) :
    isErrorSuppressedByNolint (parseNolintSuppressions rawLine n st).1 cat k = true := by
  rw [isSupp_iff] at h ⊢
  unfold parseNolintSuppressions
  rcases h with h | h
  · left; simp [h]
  · right; simp [h]

theorem adds_of_none (rawLine : String) (n : Nat) (region : List String)
    (h : findNolint rawLine = none) :
    nolintDirectiveAdds rawLine n region = ([], [], region, []) := by
  unfold nolintDirectiveAdds
  simp only [h]

theorem adds_of_bare (rawLine : String) (n : Nat) (region : List String)
    (kind : NolintKind) (grp : Option String)
    (h : findNolint rawLine = some (kind, grp)) (hg : grp = none ∨ grp = some "(*)") :
    nolintDirectiveAdds rawLine n region =
      ([if kind = .nextline then n + 1 else n], [], region, []) := by
  unfold nolintDirectiveAdds
  simp only [h]
  rw [if_pos hg]

theorem adds_of_cat (rawLine : String) (n : Nat) (region : List String)
    (kind : NolintKind) (g : String)
    (h : findNolint rawLine = some (kind, some g)) (hstar : g ≠ "(*)")
    (hknown : stripGroup g ∈ _ERROR_CATEGORIES) :
    nolintDirectiveAdds rawLine n region =
      ([], [(stripGroup g, if kind = .nextline then n + 1 else n)],
       (if kind = .beginRegion then
          (if stripGroup g ∈ region then region else region ++ [stripGroup g])
        else if kind = .endRegion then region.filter (fun x => x ≠ stripGroup g)
        else region), []) := by
  unfold nolintDirectiveAdds
  simp only [h]
  rw [if_neg (by simp [hstar]), if_pos hknown]

theorem adds_of_unknown (rawLine : String) (n : Nat) (region : List String)
    (kind : NolintKind) (g : String)
    (h : findNolint rawLine = some (kind, some g)) (hstar : g ≠ "(*)")
    (hunknown : stripGroup g ∉ _ERROR_CATEGORIES) :
    nolintDirectiveAdds rawLine n region =
      ([], [], region,
       [mkDiag "readability/nolint" 5 (LineRef.FromString n rawLine (stripGroup g))
         ("Unknown NOLINT error category: " ++ stripGroup g)]) := by
  unfold nolintDirectiveAdds
  simp only [h]
  rw [if_neg (by simp [hstar]), if_neg hunknown]

theorem parse_suppresses_all (rawLine : String) (n : Nat) (st : SuppState)
    (kind : NolintKind) (grp : Option String)
    (h : findNolint rawLine = some (kind, grp)) (hg : grp = none ∨ grp = some "(*)")
    (cat : String) :
    isErrorSuppressedByNolint (parseNolintSuppressions rawLine n st).1 cat
      (if kind = .nextline then n + 1 else n) = true := by
  rw [isSupp_iff]
  right
  unfold parseNolintSuppressions
  rw [adds_of_bare rawLine n st.region kind grp h hg]
  simp

theorem parse_suppresses_cat (rawLine : String) (n : Nat) (st : SuppState)
    (kind : NolintKind) (g : String)
    (h : findNolint rawLine = some (kind, some g)) (hstar : g ≠ "(*)")
    (hknown : stripGroup g ∈ _ERROR_CATEGORIES) :
    isErrorSuppressedByNolint (parseNolintSuppressions rawLine n st).1 (stripGroup g)
      (if kind = .nextline then n + 1 else n) = true := by
  rw [isSupp_iff]
  left
  unfold parseNolintSuppressions
  rw [adds_of_cat rawLine n st.region kind g h hstar hknown]
  simp

theorem parse_begin_region (rawLine : String) (n : Nat) (st : SuppState) (g : String)
    (h : findNolint rawLine = some (.beginRegion, some g)) (hstar : g ≠ "(*)")
    (hknown : stripGroup g ∈ _ERROR_CATEGORIES) :
    stripGroup g ∈ (parseNolintSuppressions rawLine n st).1.region := by
  unfold parseNolintSuppressions
  rw [adds_of_cat rawLine n st.region _ g h hstar hknown]
  by_cases hc : stripGroup g ∈ st.region <;> simp [hc]

theorem adds_region_kept (rawLine : String) (n : Nat) (region : List String) (c : String)
    (hc : c ∈ region)
    (hnoend : ∀ g, findNolint rawLine = some (.endRegion, some g) → g ≠ "(*)" →
      stripGroup g ∈ _ERROR_CATEGORIES → stripGroup g ≠ c) :
    c ∈ (nolintDirectiveAdds rawLine n region).2.2.1 := by
  cases h : findNolint rawLine with
  | none => rw [adds_of_none rawLine n region h]; exact hc
  | some r =>
    obtain ⟨kind, grp⟩ := r
    by_cases hbare : grp = none ∨ grp = some "(*)"
    · rw [adds_of_bare rawLine n region kind grp h hbare]; exact hc
    · cases grp with
      | none => exact absurd (Or.inl rfl) hbare
      | some g =>
        have hstar : g ≠ "(*)" := by
          intro hgg
          exact hbare (Or.inr (by rw [hgg]))
        by_cases hknown : stripGroup g ∈ _ERROR_CATEGORIES
        · rw [adds_of_cat rawLine n region kind g h hstar hknown]
          cases kind with
          | beginRegion =>
            by_cases hmem : stripGroup g ∈ region <;> simp [hmem, hc]
          | endRegion =>
            have hne : c ≠ stripGroup g := fun hcc => (hnoend g h hstar hknown) (hcc.symm)
            simp [List.mem_filter, hc, hne]
          | plain => simpa using hc
          | nextline => simpa using hc
        · rw [adds_of_unknown rawLine n region kind g h hstar hknown]; exact hc

theorem parse_region_kept (rawLine : String) (n : Nat) (st : SuppState) (c : String)
    (hc : c ∈ st.region)
    (hnoend : ∀ g, findNolint rawLine = some (.endRegion, some g) → g ≠ "(*)" →
      stripGroup g ∈ _ERROR_CATEGORIES → stripGroup g ≠ c) :
    c ∈ (parseNolintSuppressions rawLine n st).1.region := by
  unfold parseNolintSuppressions
  exact adds_region_kept rawLine n st.region c hc hnoend

theorem parse_suppressed_now (rawLine : String) (n : Nat) (st : SuppState) (c : String)
    (hc : c ∈ st.region) :
    isErrorSuppressedByNolint (parseNolintSuppressions rawLine n st).1 c n = true := by
  rw [isSupp_iff]
  left
  by_cases hend : ∃ g, findNolint rawLine = some (.endRegion, some g) ∧
      stripGroup g = c ∧ g ≠ "(*)" ∧ stripGroup g ∈ _ERROR_CATEGORIES
  · obtain ⟨g, h, hstrip, hstar, hknown⟩ := hend
    unfold parseNolintSuppressions
    rw [adds_of_cat rawLine n st.region _ g h hstar hknown]
    simp [hstrip]
  · push_neg at hend
    have hkept : c ∈ (nolintDirectiveAdds rawLine n st.region).2.2.1 :=
      adds_region_kept rawLine n st.region c hc
        (fun g hg hstar hknown heq => hend g hg heq hstar hknown)
    unfold parseNolintSuppressions
    simp only [List.mem_append]
    right
    unfold regionAdds
    rw [List.mem_map]
    exact ⟨c, hkept, rfl⟩

theorem processAux_preserves (ls : List String) (n : Nat) (st : SuppState)
    (cat : String) (k : Nat) (h : isErrorSuppressedByNolint st cat k = true) :
    isErrorSuppressedByNolint (processNolintLinesAux ls n st).1 cat k = true := by
  induction ls generalizing n st with
  | nil => simpa using h
  | cons l rest ih =>
    exact ih (n + 1) _ (parse_preserves l n st cat k h)

theorem processAux_suppresses_at (ls : List String) (n : Nat) (st : SuppState)
    (L : Nat) (lraw : String) (t : Nat) (cat : String)
    (hL : ls[L]? = some lraw)
    (key : ∀ st', isErrorSuppressedByNolint
      (parseNolintSuppressions lraw (n + L) st').1 cat t = true) :
    isErrorSuppressedByNolint (processNolintLinesAux ls n st).1 cat t = true := by
  induction ls generalizing n st L with
  | nil => simp at hL
  | cons l rest ih =>
    cases L with
    | zero =>
      rw [List.getElem?_cons_zero] at hL
      injection hL with hL2
      subst hL2
      exact processAux_preserves rest (n + 1) _ cat t (by simpa using key st)
    | succ L =>
      rw [List.getElem?_cons_succ] at hL
      have heq : n + (L + 1) = (n + 1) + L := by omega
      exact ih (n + 1) _ L hL (heq ▸ key)

theorem processAux_unknown_diag (ls : List String) (n : Nat) (st : SuppState)
    (L : Nat) (lraw : String) (kind : NolintKind) (g : String)
    (hL : ls[L]? = some lraw)
    (h : findNolint lraw = some (kind, some g)) (hstar : g ≠ "(*)")
    (hunknown : stripGroup g ∉ _ERROR_CATEGORIES) :
    mkDiag "readability/nolint" 5 (LineRef.FromString (n + L) lraw (stripGroup g))
      ("Unknown NOLINT error category: " ++ stripGroup g) ∈
      (processNolintLinesAux ls n st).2 := by
  induction ls generalizing n st L with
  | nil => simp at hL
  | cons l rest ih =>
    cases L with
    | zero =>
      rw [List.getElem?_cons_zero] at hL
      injection hL with hL2
      subst hL2
      show _ ∈ (parseNolintSuppressions l n st).2 ++ _
      apply List.mem_append_left
      unfold parseNolintSuppressions
      rw [adds_of_unknown l n st.region kind g h hstar hunknown]
      simp
    | succ L =>
      rw [List.getElem?_cons_succ] at hL
      have heq : n + (L + 1) = (n + 1) + L := by omega
      rw [heq]
      show _ ∈ (parseNolintSuppressions l n st).2 ++ _
      apply List.mem_append_right
      exact ih (n + 1) _ L hL

theorem processAux_region_range (ls : List String) (n : Nat) (st : SuppState)
    (c : String) (L : Nat) (hc : c ∈ st.region) (hL : L < ls.length)
    (hnoend : ∀ M lm, M < L → ls[M]? = some lm → ∀ g,
      findNolint lm = some (.endRegion, some g) → g ≠ "(*)" →
      stripGroup g ∈ _ERROR_CATEGORIES → stripGroup g ≠ c) :
    isErrorSuppressedByNolint (processNolintLinesAux ls n st).1 c (n + L) = true := by
  induction ls generalizing n st L with
  | nil => simp at hL
  | cons l rest ih =>
    cases L with
    | zero =>
      have h1 := parse_suppressed_now l n st c hc
      show isErrorSuppressedByNolint
        (processNolintLinesAux rest (n + 1) (parseNolintSuppressions l n st).1).1 c (n + 0) = true
      rw [Nat.add_zero]
      exact processAux_preserves rest (n + 1) _ c n h1
    | succ L =>
      have hkept : c ∈ (parseNolintSuppressions l n st).1.region :=
        parse_region_kept l n st c hc (fun g hg hstar hknown =>
          hnoend 0 l (by omega) (by simp) g hg hstar hknown)
      show isErrorSuppressedByNolint
        (processNolintLinesAux rest (n + 1) (parseNolintSuppressions l n st).1).1 c
        (n + (L + 1)) = true
      have heq : n + (L + 1) = (n + 1) + L := by omega
      rw [heq]
      refine ih (n + 1) _ L hkept (by simpa using hL) ?_
      intro M lm hM hlm g2 hg2 hstar hknown
      exact hnoend (M + 1) lm (by omega) (by simpa using hlm) g2 hg2 hstar hknown

theorem processAux_begin_range (ls : List String) (n : Nat) (st : SuppState)
    (L1 L : Nat) (l1 g : String)
    (hL1 : ls[L1]? = some l1)
    (hb : findNolint l1 = some (.beginRegion, some g)) (hstar : g ≠ "(*)")
    (hknown : stripGroup g ∈ _ERROR_CATEGORIES)
    (hL12 : L1 ≤ L) (hL : L < ls.length)
    (hnoend : ∀ M lm, L1 < M → M < L → ls[M]? = some lm → ∀ g2,
      findNolint lm = some (.endRegion, some g2) → g2 ≠ "(*)" →
      stripGroup g2 ∈ _ERROR_CATEGORIES → stripGroup g2 ≠ stripGroup g) :
    isErrorSuppressedByNolint (processNolintLinesAux ls n st).1 (stripGroup g)
      (n + L) = true := by
  induction ls generalizing n st L1 L with
  | nil => simp at hL
  | cons l rest ih =>
    cases L1 with
    | zero =>
      rw [List.getElem?_cons_zero] at hL1
      injection hL1 with hL1e
      subst hL1e
      cases L with
      | zero =>
        have h1 := parse_suppresses_cat l n st .beginRegion g hb hstar hknown
        show isErrorSuppressedByNolint
          (processNolintLinesAux rest (n + 1) (parseNolintSuppressions l n st).1).1
          (stripGroup g) (n + 0) = true
        rw [Nat.add_zero]
        exact processAux_preserves rest (n + 1) _ (stripGroup g) n (by simpa using h1)
      | succ K =>
        have hreg : stripGroup g ∈ (parseNolintSuppressions l n st).1.region :=
          parse_begin_region l n st g hb hstar hknown
        show isErrorSuppressedByNolint
          (processNolintLinesAux rest (n + 1) (parseNolintSuppressions l n st).1).1
          (stripGroup g) (n + (K + 1)) = true
        have heq : n + (K + 1) = (n + 1) + K := by omega
        rw [heq]
        refine processAux_region_range rest (n + 1) _ (stripGroup g) K hreg
          (by simpa using hL) ?_
        intro M lm hM hlm g2 hg2 hstar2 hknown2
        exact hnoend (M + 1) lm (by omega) (by omega) (by simpa using hlm)
          g2 hg2 hstar2 hknown2
    | succ J =>
      rw [List.getElem?_cons_succ] at hL1
      cases L with
      | zero => omega
      | succ K =>
        show isErrorSuppressedByNolint
          (processNolintLinesAux rest (n + 1) (parseNolintSuppressions l n st).1).1
          (stripGroup g) (n + (K + 1)) = true
        have heq : n + (K + 1) = (n + 1) + K := by omega
        rw [heq]
        refine ih (n + 1) _ J K hL1 (by omega) (by simpa using hL) ?_
        intro M lm hM hMK hlm g2 hg2 hstar2 hknown2
        exact hnoend (M + 1) lm (by omega) (by omega) (by simpa using hlm)
          g2 hg2 hstar2 hknown2

/-- C7: the NOLINT machinery.  A bare `NOLINT` or `NOLINT(*)` on line L
suppresses every category on L (and on L+1 for the NEXTLINE form); a
`NOLINT(cat)` with a known category suppresses that category on L (L+1 for
NEXTLINE); after a `NOLINTBEGIN(cat)` on L1, every line L ≥ L1 with no
intervening `NOLINTEND(cat)` strictly between L1 and L — in particular the
whole inclusive region of a matched BEGIN/END pair — is suppressed for cat;
and a directive naming an unknown category emits a readability/nolint
diagnostic of confidence 5 while adding no suppression beyond the
bookkeeping of already-active regions. -/
theorem C7_nolint_suppressions (lines : List String) :
    (∀ L lraw kind grp, lines[L]? = some lraw →
      findNolint lraw = some (kind, grp) → (grp = none ∨ grp = some "(*)") →
      ∀ cat, isErrorSuppressedByNolint (processNolintFile lines).1 cat
        (if kind = NolintKind.nextline then L + 1 else L) = true) ∧
    (∀ L lraw kind g, lines[L]? = some lraw →
      findNolint lraw = some (kind, some g) → g ≠ "(*)" →
      stripGroup g ∈ _ERROR_CATEGORIES →
      isErrorSuppressedByNolint (processNolintFile lines).1 (stripGroup g)
        (if kind = NolintKind.nextline then L + 1 else L) = true) ∧
    (∀ L1 L l1 g, lines[L1]? = some l1 →
      findNolint l1 = some (.beginRegion, some g) → g ≠ "(*)" →
      stripGroup g ∈ _ERROR_CATEGORIES →
      L1 ≤ L → L < lines.length →
      (∀ M lm, L1 < M → M < L → lines[M]? = some lm → ∀ g2,
        findNolint lm = some (.endRegion, some g2) → g2 ≠ "(*)" →
        stripGroup g2 ∈ _ERROR_CATEGORIES → stripGroup g2 ≠ stripGroup g) →
      isErrorSuppressedByNolint (processNolintFile lines).1 (stripGroup g) L = true) ∧
    (∀ L lraw kind g, lines[L]? = some lraw →
      findNolint lraw = some (kind, some g) → g ≠ "(*)" →
      stripGroup g ∉ _ERROR_CATEGORIES →
      mkDiag "readability/nolint" 5 (LineRef.FromString L lraw (stripGroup g))
        ("Unknown NOLINT error category: " ++ stripGroup g) ∈
        (processNolintFile lines).2) ∧
    (∀ rawLine n st kind g, findNolint rawLine = some (kind, some g) → g ≠ "(*)" →
      stripGroup g ∉ _ERROR_CATEGORIES →
      (parseNolintSuppressions rawLine n st).1.suppAll = st.suppAll ∧
      (parseNolintSuppressions rawLine n st).1.suppCat =
        st.suppCat ++ regionAdds st.region n ∧
      (parseNolintSuppressions rawLine n st).1.region = st.region) := by
  refine ⟨?_, ?_, ?_, ?_, ?_⟩
  · intro L lraw kind grp hL hfind hg cat
    apply processAux_suppresses_at lines 0 _ L lraw _ cat (by simpa using hL)
    intro st'
    have h1 := parse_suppresses_all lraw (0 + L) st' kind grp hfind hg cat
    by_cases hk : kind = NolintKind.nextline
    · simpa [hk] using h1
    · simpa [hk] using h1
  · intro L lraw kind g hL hfind hstar hknown
    apply processAux_suppresses_at lines 0 _ L lraw _ (stripGroup g) (by simpa using hL)
    intro st'
    have h1 := parse_suppresses_cat lraw (0 + L) st' kind g hfind hstar hknown
    by_cases hk : kind = NolintKind.nextline
    · simpa [hk] using h1
    · simpa [hk] using h1
  · intro L1 L l1 g hL1 hb hstar hknown hL12 hL hnoend
    have := processAux_begin_range lines 0 ⟨[], [], []⟩ L1 L l1 g hL1 hb hstar hknown
      hL12 hL hnoend
    simpa using this
  · intro L lraw kind g hL hfind hstar hunknown
    have := processAux_unknown_diag lines 0 ⟨[], [], []⟩ L lraw kind g hL hfind
      hstar hunknown
    simpa using this
  · intro rawLine n st kind g hfind hstar hunknown
    unfold parseNolintSuppressions
    rw [adds_of_unknown rawLine n st.region kind g hfind hstar hunknown]
    refine ⟨by simp, by simp, rfl⟩

theorem C7_nolint_suppressions_witness :
    isErrorSuppressedByNolint
      (processNolintFile ["-- NOLINTNEXTLINE(whitespace/tab)", "bad line"]).1
      "whitespace/tab" 1 = true := by
  have h := (C7_nolint_suppressions
      ["-- NOLINTNEXTLINE(whitespace/tab)", "bad line"]).2.1 0
    "-- NOLINTNEXTLINE(whitespace/tab)" NolintKind.nextline "(whitespace/tab)"
    (by rfl) (by decide) (by decide) (by decide)
  simpa using h

theorem C9_cleansing_idem_witness :
    cleansedLines ((cleansedLines ["-- header", "signal x : std_logic; -- c"]).lines) =
      cleansedLines ["-- header", "signal x : std_logic; -- c"] :=
  C9_cleansing_idem ["-- header", "signal x : std_logic; -- c"] (by decide)

/-- C9, counterexample to idempotence as claimed: on the line
`x//*c*/*y*/` the first pass deletes `/*c*/` and thereby forms the new
block comment `/*y*/`, which only a second pass deletes, so the two
passes yield different views. -/
theorem C9_counterexample :
    cleansedLines ((cleansedLines ["x//*c*/*y*/"]).lines) ≠
      cleansedLines ["x//*c*/*y*/"] := by decide

theorem bodyLoopAux_succ_snd (signals sens lines : List String) (allF seqF simF : Bool)
    (l count : Nat) (inputs : List String) :
    (bodyLoopAux signals sens lines allF seqF simF l (count + 1) inputs).2 =
      (if !simF && !seqF then
        ((findUsedVariables signals (lines.getD l "")).2.1.filter
          (fun r => !sens.contains (lowerStr r) && !allF)).map (fun r =>
          mkDiag "runtime/sensitivity" 5 (LineRef.FromString l (lines.getD l "") r)
            ("Missing signal '" ++ r ++ "' from sensitivity list"))
      else []) ++
      (bodyLoopAux signals sens lines allF seqF simF (l + 1) count
        (inputs ++ (findUsedVariables signals (lines.getD l "")).2.1.map lowerStr)).2 := rfl

theorem bodyLoop_missing (signals sens lines : List String) (allF seqF simF : Bool)
    (hallF : allF = false) (hseqF : seqF = false) (hsimF : simF = false)
    (l0 count : Nat) (inputs : List String) (l : Nat) (r : String)
    (hge : l0 ≤ l) (hlt : l < l0 + count)
    (hr : r ∈ (findUsedVariables signals (lines.getD l "")).2.1)
    (hsens : sens.contains (lowerStr r) = false) :
    ∃ d ∈ (bodyLoopAux signals sens lines allF seqF simF l0 count inputs).2,
      d.cat = "runtime/sensitivity" ∧ d.confidence = 5 ∧ d.line = l ∧
      d.msg = "Missing signal '" ++ r ++ "' from sensitivity list" := by
  subst hallF hseqF hsimF
  induction count generalizing l0 inputs with
  | zero => omega
  | succ n ih =>
    rw [bodyLoopAux_succ_snd]
    by_cases heq : l0 = l
    · subst heq
      refine ⟨mkDiag "runtime/sensitivity" 5
          (LineRef.FromString l0 (lines.getD l0 "") r)
          ("Missing signal '" ++ r ++ "' from sensitivity list"),
        List.mem_append_left _ ?_, rfl, rfl,
        FromString_line l0 (lines.getD l0 "") r, rfl⟩
      have hmem : r ∈ (findUsedVariables signals (lines.getD l0 "")).2.1.filter
          (fun x => !sens.contains (lowerStr x) && !false) :=
        List.mem_filter.mpr ⟨hr, by rw [hsens]; rfl⟩
      simpa using List.mem_map_of_mem _ hmem
    · have h1 : l0 + 1 ≤ l := by omega
      obtain ⟨d, hd, hp⟩ := ih (l0 + 1)
        (inputs ++ (findUsedVariables signals (lines.getD l0 "")).2.1.map lowerStr)
        h1 (by omega)
      exact ⟨d, List.mem_append_right _ hd, hp⟩

theorem checkProcessSens_body_sub (lines : List String) (startLine endLine : Nat)
    (sens signals : List String) (d : Diag)
    (hd : d ∈ (bodyLoopAux signals sens lines (sens.contains "all")
        (seqScanAux lines startLine (endLine - startLine)).isSome sens.isEmpty
        (findBeginAux lines startLine (endLine + 1 - startLine) (endLine + 1))
        (endLine - findBeginAux lines startLine (endLine + 1 - startLine) (endLine + 1))
        []).2) :
    d ∈ checkProcessSens lines startLine endLine sens signals :=
  List.mem_append_left _ (List.mem_append_right _ hd)

/-- C3: in the scenario process `p: process(a)` / `begin` /
`y <= a and b;` / `end process;` with declared signals `a`, `b`, `y`, the
sensitivity-family output is exactly one `runtime/sensitivity` diagnostic
of confidence 5 anchored on the assignment line whose message contains
`Missing signal 'b'`; and in general, in a combinational process
(non-empty sensitivity list, no clock pattern found in its lines) whose
list lacks `all`, every declared signal read on a body line but absent
from the sensitivity list yields such a confidence-5 diagnostic on that
line. -/
theorem C3_sensitivity_missing_signal :
    (checkProcessSens ["p: process(a)", "begin", "  y <= a and b;", "end process;"]
        0 3 ["a"] ["a", "b", "y"] =
      [⟨"runtime/sensitivity", 5, 2, 13, 14,
        "Missing signal 'b' from sensitivity list", []⟩] ∧
     hasSub ("Missing signal 'b'".toList)
       ("Missing signal 'b' from sensitivity list".toList) = true) ∧
    ∀ (lines : List String) (startLine endLine : Nat) (sens signals : List String)
      (l : Nat) (r : String),
      sens ≠ [] →
      seqScanAux lines startLine (endLine - startLine) = none →
      sens.contains "all" = false →
      findBeginAux lines startLine (endLine + 1 - startLine) (endLine + 1) ≤ l →
      l < endLine →
      r ∈ (findUsedVariables signals (lines.getD l "")).2.1 →
      sens.contains (lowerStr r) = false →
      ∃ d ∈ checkProcessSens lines startLine endLine sens signals,
        d.cat = "runtime/sensitivity" ∧ d.confidence = 5 ∧ d.line = l ∧
        d.msg = "Missing signal '" ++ r ++ "' from sensitivity list" := by
  refine ⟨⟨by decide, by decide⟩, ?_⟩
  intro lines startLine endLine sens signals l r hne hseq hall hbl hlt hr hsens
  have hsim : sens.isEmpty = false := by
    cases sens with
    | nil => exact absurd rfl hne
    | cons a t => rfl
  have hisSome : (seqScanAux lines startLine (endLine - startLine)).isSome = false := by
    rw [hseq]; rfl
  obtain ⟨d, hd, hp⟩ := bodyLoop_missing signals sens lines
    (sens.contains "all") (seqScanAux lines startLine (endLine - startLine)).isSome
    sens.isEmpty hall hisSome hsim
    (findBeginAux lines startLine (endLine + 1 - startLine) (endLine + 1))
    (endLine - findBeginAux lines startLine (endLine + 1 - startLine) (endLine + 1))
    [] l r hbl (by omega) hr hsens
  exact ⟨d, checkProcessSens_body_sub lines startLine endLine sens signals d hd, hp⟩

theorem C3_sensitivity_missing_signal_witness :
    ∃ d ∈ checkProcessSens
        ["p1: process(s1)", "begin", "  q <= s1 or s2;", "end process;"]
        0 3 ["s1"] ["s1", "s2", "q"],
      d.cat = "runtime/sensitivity" ∧ d.confidence = 5 ∧ d.line = 2 ∧
      d.msg = "Missing signal '" ++ "s2" ++ "' from sensitivity list" :=
  C3_sensitivity_missing_signal.2
    ["p1: process(s1)", "begin", "  q <= s1 or s2;", "end process;"]
    0 3 ["s1"] ["s1", "s2", "q"] 2 "s2"
    (by decide) (by decide) (by decide) (by decide) (by decide) (by decide) (by decide)

theorem findWordIdxAux_bound (name : List Char) (prev : Option Char) (l : List Char)
    (p : Nat) (h : findWordIdxAux name prev l = some p) :
    p + name.length ≤ l.length := by
  induction l generalizing prev p with
  | nil => simp [findWordIdxAux] at h
  | cons c rest ih =>
    rw [findWordIdxAux] at h
    split at h
    · rename_i hc
      injection h with h
      subst h
      have h1 : List.isPrefixOf name (c :: rest) = true := by
        cases hpre : List.isPrefixOf name (c :: rest) with
        | false => rw [hpre] at hc; simp at hc
        | true => rfl
      have h2 := (List.isPrefixOf_iff_prefix.mp h1).length_le
      simpa using h2
    · rw [Option.map_eq_some'] at h
      obtain ⟨q, hq, hpq⟩ := h
      subst hpq
      have := ih (some c) q hq
      simp only [List.length_cons]
      omega

/-- C6, counterexample: with a sensitivity list spanning several lines,
the extra-signal diagnostic anchors at the process start line, the
referenced name is not on that line, and the `LineRef.FromString`
fallback takes the name's length as the end column, exceeding the raw
line's length. -/
theorem C6_counterexample :
    ∃ d ∈ checkProcessSens
        ["p: process(", "averylongsignalnamex)", "begin", "end process;"] 0 3
        ["averylongsignalnamex"] ["averylongsignalnamex"],
      d.line = 0 ∧ ¬(d.endCol ≤ (("p: process(" : String).length : Int)) := by decide

/-- C6, amended: positions built through `LineRef.FromString` always
satisfy `0 ≤ column ≤ endColumn`, and `endColumn ≤ len(line)` whenever
the referenced name is found word-bounded on the anchor line; the
end-of-file check's diagnostic satisfies the full bounds on the raw
array it inspects (which always has at least three entries, the file
text being split after two newlines are appended).  The upper bound can
fail in the fallback case, as the counterexample shows. -/
theorem C6_column_bounds :
    (∀ (n : Nat) (line name : String),
      0 ≤ (LineRef.FromString n line name).column ∧
      (LineRef.FromString n line name).column ≤ (LineRef.FromString n line name).endColumn) ∧
    (∀ (n : Nat) (line name : String) (p : Nat),
      findWordIdx name.toList line.toList = some p →
      (LineRef.FromString n line name).endColumn ≤ (line.toList.length : Int)) ∧
    (∀ (lines : List String), 3 ≤ lines.length →
      ∀ d ∈ checkForNewlineAtEOF lines,
        0 ≤ d.col ∧ d.col ≤ d.endCol ∧
        d.endCol ≤ ((lines.getD d.line "").length : Int)) := by
  refine ⟨?_, ?_, ?_⟩
  · intro n line name
    cases hf : findWordIdx name.toList line.toList with
    | none =>
      simp only [LineRef.FromString, hf]
      exact ⟨by omega, by omega⟩
    | some p =>
      simp only [LineRef.FromString, hf]
      exact ⟨by omega, by omega⟩
  · intro n line name p hp
    simp only [LineRef.FromString, hp]
    have hb := findWordIdxAux_bound name.toList none line.toList p hp
    have hnm : name.toList.length = name.length := rfl
    omega
  · intro lines h3 d hd
    unfold checkForNewlineAtEOF at hd
    split at hd
    · rename_i hcond
      simp only [List.mem_singleton] at hd
      subst hd
      have hlen : (lines.getD (lines.length - 2) "").length ≠ 0 := by
        rcases hcond with h | h
        · omega
        · exact h
      refine ⟨?_, ?_, ?_⟩
      · show (0 : Int) ≤ ((lines.getD (lines.length - 2) "").length : Int) - 1
        omega
      · show ((lines.getD (lines.length - 2) "").length : Int) - 1 ≤
          ((lines.getD (lines.length - 2) "").length : Int) - 1 + 1
        omega
      · show ((lines.getD (lines.length - 2) "").length : Int) - 1 + 1 ≤
          ((lines.getD (lines.length - 2) "").length : Int)
        omega
    · cases hd

theorem C6_column_bounds_witness :
    (0 ≤ (LineRef.FromString 4 "signal abc : bit;" "abc").column ∧
     (LineRef.FromString 4 "signal abc : bit;" "abc").column ≤
       (LineRef.FromString 4 "signal abc : bit;" "abc").endColumn) ∧
    ((LineRef.FromString 4 "signal abc : bit;" "abc").endColumn ≤
      (("signal abc : bit;" : String).toList.length : Int)) ∧
    (∀ d ∈ checkForNewlineAtEOF ["sig", "x", ""],
      0 ≤ d.col ∧ d.col ≤ d.endCol ∧
      d.endCol ≤ ((["sig", "x", ""].getD d.line "").length : Int)) :=
  ⟨C6_column_bounds.1 4 "signal abc : bit;" "abc",
   C6_column_bounds.2.1 4 "signal abc : bit;" "abc" 7 (by decide),
   C6_column_bounds.2.2 ["sig", "x", ""] (by decide)⟩

end Vhdllint
